import Mathlib

/-!
Verification development for the reflectex repository (Go).

This file gives a shallow embedding of the two core facilities of the
repository and proves properties of them:

* the deep value comparator of src/compare.go: `CompareValues` (with its
  helper `compareKind`), and
* the string-to-value converter of src/convert.go: `StringToValue` and the
  per-kind helper functions it dispatches to.

Modelling decisions, stated once here:

* A Go `reflect.Value` is modelled by the inductive type `RValue`.  The Go
  `reflect.Kind` enumeration is modelled by `Kind`, whose `idx` function gives
  exactly the integer position each kind has in the Go enumeration
  (Invalid = 0 .. UnsafePointer = 26).
* Machine integers are modelled as `Int`/`Nat` with explicit wrap-around
  (`% 2^w`) where the code converts between widths.
* Floating point operands are modelled as exact rationals (`Rat`).  Non-finite
  values (NaN, infinities) are outside the model; no claim below depends on
  them.  Complex-kinded values are likewise not constructed by the model
  (the repository leaves complex conversion essentially unimplemented and no
  claim exercises complex operands), although `Kind` still contains the
  complex kinds at their correct enumeration positions.
* Panics of the reflect getters (`Value.Bool`, `Value.Int`, `Value.Len`,
  `Value.MapKeys`, `Value.NumField`, ... called on a value of the wrong kind)
  are modelled by `Option`: a comparator result of `none` means the Go code
  panics on that input.  Getter fidelity is exact for the kinds the claims
  exercise; two corners are simplified and marked at their definitions
  (indexing into a string produces byte values in Go, and `Value.Pointer` is
  defined on a few extra kinds).
* `Value.String()` of a non-string value prints `<T Value>` where `T` is the
  dynamic type.  The model tracks kinds, not full Go types, so for scalar
  kinds the exact Go text is produced (`<int Value>`, `<uint8 Value>`, ...),
  while for compound kinds a kind-derived placeholder stands in for the type
  name.  No settled claim depends on the placeholder text of compound kinds.
* Fallible code returns `Option GoErr` paired with the final value of the
  conversion target, so that "the target is left unchanged on error" is a
  statable property: `StringToValue s t out = (some e, out1)` models a call
  that returns error `e` leaving the target holding `out1`.
-/

/-- Kind mirrors the Go reflect.Kind enumeration.  Constructor `iface` stands
for reflect.Interface, `fn` for reflect.Func and `rawptr` for
reflect.UnsafePointer (renamed only because of Lean identifier constraints). -/
inductive Kind where
  | invalid
  | bool
  | int
  | int8
  | int16
  | int32
  | int64
  | uint
  | uint8
  | uint16
  | uint32
  | uint64
  | uintptr
  | float32
  | float64
  | complex64
  | complex128
  | array
  | chan
  | fn
  | iface
  | map
  | ptr
  | slice
  | string
  | struct
  | rawptr
deriving DecidableEq, Fintype

/-- Kind.idx gives the integer index of a kind in the Go reflect.Kind
enumeration, the number Go obtains by converting the kind to an integer. -/
def Kind.idx : Kind → Nat
  | .invalid => 0
  | .bool => 1
  | .int => 2
  | .int8 => 3
  | .int16 => 4
  | .int32 => 5
  | .int64 => 6
  | .uint => 7
  | .uint8 => 8
  | .uint16 => 9
  | .uint32 => 10
  | .uint64 => 11
  | .uintptr => 12
  | .float32 => 13
  | .float64 => 14
  | .complex64 => 15
  | .complex128 => 16
  | .array => 17
  | .chan => 18
  | .fn => 19
  | .iface => 20
  | .map => 21
  | .ptr => 22
  | .slice => 23
  | .string => 24
  | .struct => 25
  | .rawptr => 26

/-- compareKind embeds compareKind of src/compare.go lines 253-261: compare
two kinds as their integer index in the enumeration. -/
def compareKind (a b : Kind) : Int :=
  if a.idx > b.idx then 1
  else if a.idx < b.idx then -1
  else 0

/-- IKind distinguishes the signed integer kinds (reflect.Int .. Int64). -/
inductive IKind where
  | i
  | i8
  | i16
  | i32
  | i64
deriving DecidableEq, Fintype

/-- UKind distinguishes the unsigned integer kinds
(reflect.Uint .. Uint64 and Uintptr). -/
inductive UKind where
  | u
  | u8
  | u16
  | u32
  | u64
  | uptr
deriving DecidableEq, Fintype

/-- FKind distinguishes the floating point kinds. -/
inductive FKind where
  | f32
  | f64
deriving DecidableEq, Fintype

/-- IKind.width is the bit width the Go type of that kind has; the Go `int`
is 64 bits wide on the platforms the repository targets. -/
def IKind.width : IKind → Nat
  | .i => 64
  | .i8 => 8
  | .i16 => 16
  | .i32 => 32
  | .i64 => 64

/-- UKind.width is the bit width of the unsigned Go type of that kind. -/
def UKind.width : UKind → Nat
  | .u => 64
  | .u8 => 8
  | .u16 => 16
  | .u32 => 32
  | .u64 => 64
  | .uptr => 64

/-- RValue models a Go reflect.Value: a runtime value together with its kind.
`ptrv none` is a nil pointer, `ifacev none` a nil interface.  Struct fields
carry (name, CanSet flag, value); the CanSet flag models
reflect.Value.CanSet of the field, which in Go is true exactly when the
struct is addressable and the field is exported. -/
inductive RValue where
  | invalid
  | boolv (b : Bool)
  | intv (k : IKind) (n : Int)
  | uintv (k : UKind) (n : Nat)
  | floatv (k : FKind) (x : Rat)
  | strv (s : String)
  | arrayv (es : List RValue)
  | slicev (es : List RValue)
  | mapv (entries : List (RValue × RValue))
  | structv (fields : List (String × Bool × RValue))
  | ifacev (v : Option RValue)
  | ptrv (v : Option RValue)
  | rawptrv (addr : Nat)

/-- IKind.kind maps a signed integer width marker to its reflect.Kind. -/
def IKind.kind : IKind → Kind
  | .i => .int
  | .i8 => .int8
  | .i16 => .int16
  | .i32 => .int32
  | .i64 => .int64

/-- UKind.kind maps an unsigned integer width marker to its reflect.Kind. -/
def UKind.kind : UKind → Kind
  | .u => .uint
  | .u8 => .uint8
  | .u16 => .uint16
  | .u32 => .uint32
  | .u64 => .uint64
  | .uptr => .uintptr

/-- FKind.kind maps a float width marker to its reflect.Kind. -/
def FKind.kind : FKind → Kind
  | .f32 => .float32
  | .f64 => .float64

/-- RValue.kind models reflect.Value.Kind. -/
def RValue.kind : RValue → Kind
  | .invalid => .invalid
  | .boolv _ => .bool
  | .intv k _ => k.kind
  | .uintv k _ => k.kind
  | .floatv k _ => k.kind
  | .strv _ => .string
  | .arrayv _ => .array
  | .slicev _ => .slice
  | .mapv _ => .map
  | .structv _ => .struct
  | .ifacev _ => .iface
  | .ptrv _ => .ptr
  | .rawptrv _ => .rawptr

/-- IKind.typeName is the Go type name printed for values of that kind. -/
def IKind.typeName : IKind → String
  | .i => "int"
  | .i8 => "int8"
  | .i16 => "int16"
  | .i32 => "int32"
  | .i64 => "int64"

/-- UKind.typeName is the Go type name printed for values of that kind. -/
def UKind.typeName : UKind → String
  | .u => "uint"
  | .u8 => "uint8"
  | .u16 => "uint16"
  | .u32 => "uint32"
  | .u64 => "uint64"
  | .uptr => "uintptr"

/-- FKind.typeName is the Go type name printed for values of that kind. -/
def FKind.typeName : FKind → String
  | .f32 => "float32"
  | .f64 => "float64"

/-- RValue.goString models reflect.Value.String(): the contained string for a
string value, the text `<invalid Value>` for the zero Value, and a
`<T Value>` placeholder otherwise.  For scalar kinds the type name T is the
kind name, exactly as in Go; for compound kinds Go would print the full
dynamic type (for example `<[5]int Value>`), which the kind-only model
approximates with the kind name.  No settled claim depends on the
placeholder text of compound-kinded values. -/
def RValue.goString : RValue → String
  | .invalid => "<invalid Value>"
  | .boolv _ => "<bool Value>"
  | .intv k _ => "<" ++ k.typeName ++ " Value>"
  | .uintv k _ => "<" ++ k.typeName ++ " Value>"
  | .floatv k _ => "<" ++ k.typeName ++ " Value>"
  | .strv s => s
  | .arrayv _ => "<array Value>"
  | .slicev _ => "<slice Value>"
  | .mapv _ => "<map Value>"
  | .structv _ => "<struct Value>"
  | .ifacev _ => "<interface Value>"
  | .ptrv _ => "<ptr Value>"
  | .rawptrv _ => "<unsafe.Pointer Value>"

/-- lexCompare compares two character lists lexicographically, returning
-1, 0 or 1.  On UTF-8 text codepoint order coincides with byte order, so
this is the order strings.Compare and the `<` of Go strings use. -/
def lexCompare : List Char → List Char → Int
  | [], [] => 0
  | [], _ :: _ => -1
  | _ :: _, [] => 1
  | a :: as, b :: bs =>
    if a < b then -1 else if b < a then 1 else lexCompare as bs

/-- strCompare embeds strings.Compare of the Go standard library. -/
def strCompare (a b : String) : Int :=
  lexCompare a.data b.data

/-- strLess is the `<` on Go strings, used by the sort.Slice callbacks. -/
def strLess (a b : String) : Bool :=
  lexCompare a.data b.data = -1

/-- insertByLess inserts an element into a list before the first element it is
less than; together with sortByLess this is a deterministic sorting routine
standing in for sort.Slice with the given less callback. -/
def insertByLess (less : α → α → Bool) (x : α) : List α → List α
  | [] => [x]
  | y :: ys => if less x y then x :: y :: ys else y :: insertByLess less x ys

/-- sortByLess sorts a list by the given less callback (insertion sort).
sort.Slice is an unstable sort with a pseudo-random initial order; the Go
comparator only ever sorts by key text or field name, and no settled claim
distinguishes orders of elements whose sort keys are equal, so a fixed
deterministic sort is an adequate model. -/
def sortByLess (less : α → α → Bool) : List α → List α
  | [] => []
  | x :: xs => insertByLess less x (sortByLess less xs)

mutual
/-- rvBEq models Go value equality between map keys, used by
reflect.Value.SetMapIndex and MapIndex to decide whether two keys are the
same.  It is structural equality; Go pointer keys compare by address, which a
value-level model cannot track, so pointer keys compare structurally here (no
claim uses pointer-keyed maps). -/
def rvBEq : RValue → RValue → Bool
  | .invalid, .invalid => true
  | .boolv a, .boolv b => a = b
  | .intv k1 a, .intv k2 b => k1 = k2 && a = b
  | .uintv k1 a, .uintv k2 b => k1 = k2 && a = b
  | .floatv k1 a, .floatv k2 b => k1 = k2 && a = b
  | .strv a, .strv b => a = b
  | .arrayv a, .arrayv b => rvListBEq a b
  | .slicev a, .slicev b => rvListBEq a b
  | .mapv a, .mapv b => rvEntriesBEq a b
  | .structv a, .structv b => rvFieldsBEq a b
  | .ifacev (some a), .ifacev (some b) => rvBEq a b
  | .ifacev none, .ifacev none => true
  | .ptrv (some a), .ptrv (some b) => rvBEq a b
  | .ptrv none, .ptrv none => true
  | .rawptrv a, .rawptrv b => a = b
  | _, _ => false

/-- rvListBEq is rvBEq lifted pointwise to lists. -/
def rvListBEq : List RValue → List RValue → Bool
  | [], [] => true
  | a :: as, b :: bs => rvBEq a b && rvListBEq as bs
  | _, _ => false

/-- rvEntriesBEq is rvBEq lifted pointwise to entry lists. -/
def rvEntriesBEq : List (RValue × RValue) → List (RValue × RValue) → Bool
  | [], [] => true
  | (k1, v1) :: as, (k2, v2) :: bs =>
    rvBEq k1 k2 && rvBEq v1 v2 && rvEntriesBEq as bs
  | _, _ => false

/-- rvFieldsBEq is rvBEq lifted pointwise to field lists. -/
def rvFieldsBEq : List (String × Bool × RValue) → List (String × Bool × RValue) → Bool
  | [], [] => true
  | (n1, c1, v1) :: as, (n2, c2, v2) :: bs =>
    n1 = n2 && c1 = c2 && rvBEq v1 v2 && rvFieldsBEq as bs
  | _, _ => false
end

/-- mapIndex models reflect.Value.MapIndex: the value stored under a key, or
the zero Value when the key is absent. -/
def mapIndex : List (RValue × RValue) → RValue → RValue
  | [], _ => .invalid
  | (k0, v0) :: rest, k => if rvBEq k0 k then v0 else mapIndex rest k

/-- fieldByName models reflect.Value.FieldByName: the value of the first
field with the given name, or the zero Value when no field matches. -/
def fieldByName : List (String × Bool × RValue) → String → RValue
  | [], _ => .invalid
  | (n0, _, v0) :: rest, n => if n0 = n then v0 else fieldByName rest n

/-- strip embeds the pointer-dereferencing loops of src/compare.go lines
61-69: dereference while the kind is Ptr, counting the dereferences, with
Elem of a nil pointer producing the zero Value, which stops the loop.  It
returns (depth, base value). -/
def strip : RValue → Nat × RValue
  | .ptrv (some v) =>
    let r := strip v
    (r.1 + 1, r.2)
  | .ptrv none => (1, .invalid)
  | v => (0, v)

/-- unwrapIface embeds reflect.ValueOf(v.Interface()): for an interface
value the concrete value it wraps (the zero Value for a nil interface), and
for any other value the value itself. -/
def unwrapIface : RValue → RValue
  | .ifacev (some v) => v
  | .ifacev none => .invalid
  | v => v

/-- toBool models reflect.Value.Bool, which panics (none) off the bool kind. -/
def RValue.toBool : RValue → Option Bool
  | .boolv b => some b
  | _ => none

/-- toInt models reflect.Value.Int, which panics off the signed kinds. -/
def RValue.toInt : RValue → Option Int
  | .intv _ n => some n
  | _ => none

/-- toUint models reflect.Value.Uint, which panics off the unsigned kinds. -/
def RValue.toUint : RValue → Option Nat
  | .uintv _ n => some n
  | _ => none

/-- toFloat models reflect.Value.Float, which panics off the float kinds. -/
def RValue.toFloat : RValue → Option Rat
  | .floatv _ x => some x
  | _ => none

/-- toLen models reflect.Value.Len, defined on arrays, slices, maps and
strings (for strings it is the byte length) and panicking elsewhere.
Channel values never arise in the model. -/
def RValue.toLen : RValue → Option Nat
  | .arrayv es => some es.length
  | .slicev es => some es.length
  | .mapv entries => some entries.length
  | .strv s => some s.utf8ByteSize
  | _ => none

/-- toElems gives the element list of an array or slice, for the index loop
of the comparator.  Go additionally lets Value.Index run over strings,
yielding byte values; that corner is reachable only by comparing a pointer
to an array or slice against a same-depth pointer to a string and is not
modelled (treated as a panic).  No claim depends on it. -/
def RValue.toElems : RValue → Option (List RValue)
  | .arrayv es => some es
  | .slicev es => some es
  | _ => none

/-- toEntries gives the entry list of a map; MapKeys panics off the map
kind. -/
def RValue.toEntries : RValue → Option (List (RValue × RValue))
  | .mapv entries => some entries
  | _ => none

/-- toAddr models reflect.Value.Pointer for the one kind that reaches the
pointer-comparison arm of the comparator after dereferencing, UnsafePointer.
Go also defines Pointer on chan, func, map, ptr and slice values; those
corners are reachable only through mixed-kind pointer chains and are not
modelled (treated as a panic).  No claim depends on them. -/
def RValue.toAddr : RValue → Option Nat
  | .rawptrv a => some a
  | _ => none

/-- toFields gives the field list of a struct; NumField panics off the
struct kind. -/
def RValue.toFields : RValue → Option (List (String × Bool × RValue))
  | .structv fields => some fields
  | _ => none

/-- cmpKeyLists embeds the key-comparison loop of src/compare.go lines
164-171: walk the two sorted key lists in step, comparing key kinds first and
key text second, returning at the first difference. -/
def cmpKeyLists : List RValue → List RValue → Int
  | k1 :: t1, k2 :: t2 =>
    let ck := compareKind k1.kind k2.kind
    if ck ≠ 0 then ck
    else
      let cs := strCompare k1.goString k2.goString
      if cs ≠ 0 then cs
      else cmpKeyLists t1 t2
  | _, _ => 0

/-- publicFields embeds the field-enumeration loops of src/compare.go lines
189-202: keep the fields whose value reports CanSet, recording name and
declared kind, in declaration order. -/
def publicFields (fields : List (String × Bool × RValue)) : List (String × Kind) :=
  (fields.filter fun f => f.2.1).map fun f => (f.1, f.2.2.kind)

/-- sizeOf the stripped base of a value never exceeds sizeOf of the value. -/
theorem strip_sizeOf_le : ∀ v : RValue, sizeOf (strip v).2 ≤ sizeOf v
  | .ptrv (some v) => by
    have ih := strip_sizeOf_le v
    simp [strip]
    omega
  | .ptrv none => by simp [strip]
  | .invalid => by simp [strip]
  | .boolv _ => by simp [strip]
  | .intv _ _ => by simp [strip]
  | .uintv _ _ => by simp [strip]
  | .floatv _ _ => by simp [strip]
  | .strv _ => by simp [strip]
  | .arrayv _ => by simp [strip]
  | .slicev _ => by simp [strip]
  | .mapv _ => by simp [strip]
  | .structv _ => by simp [strip]
  | .ifacev _ => by simp [strip]
  | .rawptrv _ => by simp [strip]

/-- Stripping leaves a base value whose kind is never Ptr. -/
theorem strip_kind_ne_ptr : ∀ v : RValue, (strip v).2.kind ≠ .ptr
  | .ptrv (some v) => by
    have ih := strip_kind_ne_ptr v
    simpa [strip] using ih
  | .ptrv none => by simp [strip, RValue.kind]
  | .invalid => by simp [strip, RValue.kind]
  | .boolv _ => by simp [strip, RValue.kind]
  | .intv k _ => by cases k <;> simp [strip, RValue.kind, IKind.kind]
  | .uintv k _ => by cases k <;> simp [strip, RValue.kind, UKind.kind]
  | .floatv k _ => by cases k <;> simp [strip, RValue.kind, FKind.kind]
  | .strv _ => by simp [strip, RValue.kind]
  | .arrayv _ => by simp [strip, RValue.kind]
  | .slicev _ => by simp [strip, RValue.kind]
  | .mapv _ => by simp [strip, RValue.kind]
  | .structv _ => by simp [strip, RValue.kind]
  | .ifacev _ => by simp [strip, RValue.kind]
  | .rawptrv _ => by simp [strip, RValue.kind]

/-- Stripping a value whose kind is not Ptr is the identity at depth 0. -/
theorem strip_of_kind_ne_ptr (v : RValue) (h : v.kind ≠ .ptr) : strip v = (0, v) := by
  cases v <;> simp_all [strip, RValue.kind]

/-- Unwrapping an interface never increases sizeOf. -/
theorem unwrapIface_sizeOf_le : ∀ v : RValue, sizeOf (unwrapIface v) ≤ sizeOf v := by
  intro v
  cases v with
  | ifacev o => cases o <;> simp [unwrapIface] <;> omega
  | _ => simp [unwrapIface]

/-- Unwrapping a value of interface kind strictly decreases sizeOf. -/
theorem unwrapIface_sizeOf_lt (v : RValue) (h : v.kind = .iface) :
    sizeOf (unwrapIface v) < sizeOf v := by
  cases v <;> simp_all [RValue.kind]
  case intv k n => cases k <;> simp_all [IKind.kind]
  case uintv k n => cases k <;> simp_all [UKind.kind]
  case floatv k x => cases k <;> simp_all [FKind.kind]
  case ifacev o => cases o <;> simp [unwrapIface] <;> omega

/-- toFields succeeds only on a struct and returns its strictly smaller
field list. -/
theorem toFields_sizeOf_lt (v : RValue) (f : List (String × Bool × RValue))
    (h : v.toFields = some f) : sizeOf f < sizeOf v := by
  cases v <;> simp_all [RValue.toFields]

/-- fieldByName never returns something larger than the field list. -/
theorem fieldByName_sizeOf_le : ∀ (flds : List (String × Bool × RValue)) (n : String),
    sizeOf (fieldByName flds n) ≤ sizeOf flds
  | [], _ => by simp [fieldByName]
  | (n0, c0, v0) :: rest, n => by
    have ih := fieldByName_sizeOf_le rest n
    simp only [fieldByName]
    by_cases h : n0 = n <;> simp [h] <;> omega

/-- fieldByName on a nonempty field list returns something strictly smaller. -/
theorem fieldByName_sizeOf_lt : ∀ (flds : List (String × Bool × RValue)) (n : String),
    flds ≠ [] → sizeOf (fieldByName flds n) < sizeOf flds
  | (n0, c0, v0) :: rest, n, _ => by
    have ih := fieldByName_sizeOf_le rest n
    simp only [fieldByName]
    by_cases h : n0 = n <;> simp [h] <;> omega

/-- toElems succeeds only on an array or slice and returns its strictly
smaller element list. -/
theorem toElems_sizeOf_lt (v : RValue) (es : List RValue)
    (h : v.toElems = some es) : sizeOf es < sizeOf v := by
  cases v <;> simp_all [RValue.toElems]

mutual
/-- CompareValues embeds CompareValues of src/compare.go lines 55-246.  A
result of none models a reflect panic; some r models returning r.  Structure,
in source order: compare the kinds of the operands and return that order when
it is nonzero; dereference both operands to their base values counting the
pointer depths, and return the depth order when the depths differ; otherwise
dispatch on the kind of the first base value (compareStripped). -/
def CompareValues (a b : RValue) : Option Int :=
  let res := compareKind a.kind b.kind
  if res ≠ 0 then some res
  else
    let pa := strip a
    let pb := strip b
    if pa.1 > pb.1 then some 1
    else if pb.1 > pa.1 then some (-1)
    else compareStripped pa.2 pb.2
termination_by (sizeOf a, 2)
decreasing_by
  have ha := strip_sizeOf_le a
  simp_wf
  rcases Nat.lt_or_ge (sizeOf (strip a).2) (sizeOf a) with h | h
  · exact Prod.Lex.left _ _ h
  · have he : sizeOf (strip a).2 = sizeOf a := by omega
    rw [he]
    exact Prod.Lex.right _ (by omega)

/-- compareStripped embeds the switch statement of src/compare.go lines
77-245, applied to the two dereferenced base values.  The dispatch is on the
kind of the first operand; the second operand can have a different kind when
the operands were same-depth pointer chains ending in bases of different
kinds, and the getter calls on it then panic (none) exactly where the Go
getters panic.  The Array/Slice, Map, Struct and Interface case bodies are
split into the named helpers below. -/
def compareStripped (a b : RValue) : Option Int :=
  match a.kind with
  | .bool =>
    match a.toBool with
    | some x =>
      match b.toBool with
      | some y => some (if x = y then 0 else if x then 1 else -1)
      | none => none
    | none => none
  | .int | .int8 | .int16 | .int32 | .int64 =>
    let res := compareKind a.kind b.kind
    if res ≠ 0 then some res
    else
      match a.toInt with
      | some x =>
        match b.toInt with
        | some y => some (if x = y then 0 else if x > y then 1 else -1)
        | none => none
      | none => none
  | .uint | .uint8 | .uint16 | .uint32 | .uint64 | .uintptr =>
    let res := compareKind a.kind b.kind
    if res ≠ 0 then some res
    else
      match a.toUint with
      | some x =>
        match b.toUint with
        | some y => some (if x = y then 0 else if x > y then 1 else -1)
        | none => none
      | none => none
  | .float32 | .float64 =>
    let res := compareKind a.kind b.kind
    if res ≠ 0 then some res
    else
      match a.toFloat with
      | some x =>
        match b.toFloat with
        | some y => some (if x = y then 0 else if x > y then 1 else -1)
        | none => none
      | none => none
  | .complex64 | .complex128 =>
    -- The model constructs no value of complex kind, so this arm is
    -- unreachable; compare.go would compare fmt.Sprint of the two complex
    -- numbers here.
    none
  | .array | .slice =>
    let res := compareKind a.kind b.kind
    if res ≠ 0 then some res
    else cmpSeq a b
  | .map => cmpMaps a b
  | .string => some (strCompare a.goString b.goString)
  | .struct => cmpStructs a b
  | .iface => cmpIfaces a b
  | .ptr | .rawptr =>
    match a.toAddr with
    | some x =>
      match b.toAddr with
      | some y => some (if x = y then 0 else if x > y then 1 else -1)
      | none => none
    | none => none
  | .invalid | .chan | .fn => some 0
termination_by (sizeOf a, 1)
decreasing_by
  all_goals simp_wf
  all_goals exact Prod.Lex.right _ (by omega)

/-- cmpSeq embeds the body of the Array/Slice case, src/compare.go lines
135-146, run when both kinds passed the guard: compare lengths, then the
elements pairwise.  The first operand is an array or slice here. -/
def cmpSeq : RValue → RValue → Option Int
  | .arrayv ea, b =>
    (match b.toLen with
    | some lb =>
      if ea.length = lb then
        match b.toElems with
        | some eb => cmpElems ea eb
        | none =>
          -- b has a length but is not indexable by the model.  With length
          -- 0 the Go index loop runs no iteration and returns 0; otherwise
          -- Go would panic on a map operand and would compare against byte
          -- values on a string operand, a corner reachable only through
          -- mixed-kind pointer chains and collapsed to a panic here (see
          -- toElems).
          if ea.length = 0 then some 0 else none
      else if ea.length > lb then some 1
      else some (-1)
    | none => none)
  | .slicev ea, b =>
    (match b.toLen with
    | some lb =>
      if ea.length = lb then
        match b.toElems with
        | some eb => cmpElems ea eb
        | none => if ea.length = 0 then some 0 else none
      else if ea.length > lb then some 1
      else some (-1)
    | none => none)
  | _, _ => none
termination_by a b => (sizeOf a, 0)
decreasing_by
  all_goals simp_wf
  all_goals exact Prod.Lex.left _ _ (by omega)

/-- cmpElems embeds the index loop of the Array/Slice case, src/compare.go
lines 136-140: pairwise recursive comparison returning the first nonzero
result, 0 when the lists are exhausted. -/
def cmpElems : List RValue → List RValue → Option Int
  | x :: xs, y :: ys =>
    match CompareValues x y with
    | none => none
    | some r => if r ≠ 0 then some r else cmpElems xs ys
  | _, _ => some 0
termination_by as bs => (sizeOf as, 2)
decreasing_by
  · simp_wf
    exact Prod.Lex.left _ _ (by omega)
  · simp_wf
    exact Prod.Lex.left _ _ (by omega)

/-- cmpMaps embeds the Map case of src/compare.go lines 147-184: compare
lengths, then the sorted key lists by kind and text.  The value-comparison
loop of lines 172-184 is guarded by `a.Kind() != b.Kind()`, where a and b
are the two map operands themselves, whose kinds are both reflect.Map
whenever the loop is reached; the guard is false at every iteration, so the
loop compares no values and the case falls through to `return 0`. -/
def cmpMaps : RValue → RValue → Option Int
  | .mapv ae, b =>
    (match b.toLen with
    | some lb =>
      if ae.length > lb then some 1
      else if ae.length < lb then some (-1)
      else
        match b.toEntries with
        | some be =>
          let akeys := sortByLess (fun x y => strLess x.goString y.goString)
            (ae.map Prod.fst)
          let bkeys := sortByLess (fun x y => strLess x.goString y.goString)
            (be.map Prod.fst)
          let kres := cmpKeyLists akeys bkeys
          if kres ≠ 0 then some kres
          else some 0
        | none => none
    | none => none)
  | _, _ => none

/-- cmpStructs embeds the Struct case of src/compare.go lines 187-230:
enumerate the CanSet fields of both operands, compare the counts, then the
alphabetically sorted field lists.  NumField panics when the second operand
is not a struct. -/
def cmpStructs : RValue → RValue → Option Int
  | .structv fa, b =>
    (match b.toFields with
    | some fb =>
      let aflds := publicFields fa
      let bflds := publicFields fb
      if aflds.length > bflds.length then some 1
      else if aflds.length < bflds.length then some (-1)
      else
        cmpFields (sortByLess (fun x y => strLess x.1 y.1) aflds)
          (sortByLess (fun x y => strLess x.1 y.1) bflds) fa fb
    | none => none)
  | _, _ => none
termination_by a b => (sizeOf a, 0)
decreasing_by
  simp_wf
  exact Prod.Lex.left _ _ (by omega)

/-- cmpFields embeds the sorted-field loop of the Struct case, src/compare.go
lines 217-230: for each position of the two sorted (name, kind) lists compare
the declared kinds, then the names, then recursively the values looked up by
name in the original field lists, returning at the first nonzero result. -/
def cmpFields : List (String × Kind) → List (String × Kind) →
    List (String × Bool × RValue) → List (String × Bool × RValue) → Option Int
  | (n1, k1) :: t1, (n2, k2) :: t2, af, bf =>
    let ck := compareKind k1 k2
    if ck ≠ 0 then some ck
    else
      let cn := strCompare n1 n2
      if cn ≠ 0 then some cn
      else
        match CompareValues (fieldByName af n1) (fieldByName bf n2) with
        | none => none
        | some r => if r ≠ 0 then some r else cmpFields t1 t2 af bf
  | _, _, _, _ => some 0
termination_by sa sb af bf => (sizeOf af, 3 + sizeOf sa + sizeOf sb)
decreasing_by
  all_goals simp_wf
  · -- recursive value comparison through fieldByName
    have h1 := fieldByName_sizeOf_le af n1
    rcases Nat.lt_or_ge (sizeOf (fieldByName af n1)) (sizeOf af) with h | h
    · exact Prod.Lex.left _ _ h
    · have he : sizeOf (fieldByName af n1) = sizeOf af := by omega
      rw [he]
      exact Prod.Lex.right _ (by omega)
  · -- loop step on the sorted field lists
    exact Prod.Lex.right _ (by omega)

/-- cmpIfaces embeds the Interface case of src/compare.go line 232: unwrap
both operands and compare the contained values recursively. -/
def cmpIfaces : RValue → RValue → Option Int
  | .ifacev o, b => CompareValues (unwrapIface (RValue.ifacev o)) (unwrapIface b)
  | _, _ => none
termination_by a b => (sizeOf a, 0)
decreasing_by
  simp_wf
  have h := unwrapIface_sizeOf_lt (RValue.ifacev o) rfl
  simp at h
  exact Prod.Lex.left _ _ h
end

/-- compareKind of a kind with itself is 0. -/
theorem compareKind_self (k : Kind) : compareKind k k = 0 := by
  simp [compareKind]

/-- Kind.idx is injective: distinct kinds occupy distinct enumeration
positions. -/
theorem Kind.idx_inj : ∀ k1 k2 : Kind, k1.idx = k2.idx → k1 = k2 := by decide

/-- compareKind is 0 exactly on equal kinds. -/
theorem compareKind_eq_zero_iff (k1 k2 : Kind) : compareKind k1 k2 = 0 ↔ k1 = k2 := by
  constructor
  · intro h
    unfold compareKind at h
    split_ifs at h with h1 h2
    all_goals
      first
      | exact absurd h (by decide)
      | exact Kind.idx_inj k1 k2 (by omega)
  · intro h
    subst h
    exact compareKind_self k1

/-- compareKind is antisymmetric. -/
theorem compareKind_antisymm (k1 k2 : Kind) : compareKind k1 k2 = -compareKind k2 k1 := by
  unfold compareKind
  split_ifs <;> omega

/-- compareKind only takes the values -1, 0, 1. -/
theorem compareKind_cases (k1 k2 : Kind) :
    compareKind k1 k2 = -1 ∨ compareKind k1 k2 = 0 ∨ compareKind k1 k2 = 1 := by
  unfold compareKind
  split_ifs <;> simp

/-- lexCompare is antisymmetric. -/
theorem lexCompare_antisymm : ∀ a b : List Char, lexCompare a b = -lexCompare b a := by
  intro a
  induction a with
  | nil => intro b; cases b <;> simp [lexCompare]
  | cons x xs ih =>
    intro b
    cases b with
    | nil => simp [lexCompare]
    | cons y ys =>
      simp only [lexCompare]
      rcases lt_trichotomy x y with h | h | h
      · simp [h, not_lt_of_gt h, ne_of_gt h]
      · subst h
        simp [lt_irrefl, ih]
      · simp [h, not_lt_of_gt h]

/-- lexCompare only takes the values -1, 0, 1. -/
theorem lexCompare_cases : ∀ a b : List Char,
    lexCompare a b = -1 ∨ lexCompare a b = 0 ∨ lexCompare a b = 1 := by
  intro a
  induction a with
  | nil => intro b; cases b <;> simp [lexCompare]
  | cons x xs ih =>
    intro b
    cases b with
    | nil => simp [lexCompare]
    | cons y ys =>
      simp only [lexCompare]
      split_ifs <;> simp [ih]

/-- strCompare is antisymmetric. -/
theorem strCompare_antisymm (a b : String) : strCompare a b = -strCompare b a :=
  lexCompare_antisymm a.data b.data

/-- strCompare only takes the values -1, 0, 1. -/
theorem strCompare_cases (a b : String) :
    strCompare a b = -1 ∨ strCompare a b = 0 ∨ strCompare a b = 1 :=
  lexCompare_cases a.data b.data

/-- cmpKeyLists is antisymmetric. -/
theorem cmpKeyLists_antisymm : ∀ ka kb : List RValue,
    cmpKeyLists ka kb = -cmpKeyLists kb ka := by
  intro ka
  induction ka with
  | nil => intro kb; cases kb <;> simp [cmpKeyLists]
  | cons k1 t1 ih =>
    intro kb
    cases kb with
    | nil => simp [cmpKeyLists]
    | cons k2 t2 =>
      simp only [cmpKeyLists]
      have hck := compareKind_antisymm k1.kind k2.kind
      have hcs := strCompare_antisymm k1.goString k2.goString
      by_cases hk0 : compareKind k2.kind k1.kind = 0
      · have hk1 : compareKind k1.kind k2.kind = 0 := by rw [hck, hk0, neg_zero]
        by_cases hs0 : strCompare k2.goString k1.goString = 0
        · have hs1 : strCompare k1.goString k2.goString = 0 := by rw [hcs, hs0, neg_zero]
          simp [hk0, hk1, hs0, hs1, ih t2]
        · have hs1 : strCompare k1.goString k2.goString ≠ 0 := by
            rw [hcs]
            simpa using hs0
          simp [hk0, hk1, hs0, hs1, hcs]
      · have hk1 : compareKind k1.kind k2.kind ≠ 0 := by
          rw [hck]
          simpa using hk0
        simp [hk0, hk1, hck]

/-- cmpKeyLists only takes the values -1, 0, 1. -/
theorem cmpKeyLists_cases : ∀ ka kb : List RValue,
    cmpKeyLists ka kb = -1 ∨ cmpKeyLists ka kb = 0 ∨ cmpKeyLists ka kb = 1 := by
  intro ka
  induction ka with
  | nil => intro kb; cases kb <;> simp [cmpKeyLists]
  | cons k1 t1 ih =>
    intro kb
    cases kb with
    | nil => simp [cmpKeyLists]
    | cons k2 t2 =>
      simp only [cmpKeyLists]
      split_ifs with h1 h2
      · rcases compareKind_cases k1.kind k2.kind with h | h | h <;> simp_all
      · rcases strCompare_cases k1.goString k2.goString with h | h | h <;> simp_all
      · exact ih t2

/-- CompareValues on operands of unequal kinds returns exactly the kind
order, as the first guard of the function. -/
theorem cv_kind_ne (a b : RValue) (h : a.kind ≠ b.kind) :
    CompareValues a b = some (compareKind a.kind b.kind) := by
  have h0 : compareKind a.kind b.kind ≠ 0 := by
    rw [Ne, compareKind_eq_zero_iff]
    exact h
  rw [CompareValues.eq_def]
  simp [h0]

/-- IKind.kind is injective. -/
theorem IKind.kind_inj_int : ∀ k1 k2 : IKind, k1.kind = k2.kind → k1 = k2 := by decide

/-- UKind.kind is injective. -/
theorem UKind.kind_inj_uint : ∀ k1 k2 : UKind, k1.kind = k2.kind → k1 = k2 := by decide

/-- FKind.kind is injective. -/
theorem FKind.kind_inj_float : ∀ k1 k2 : FKind, k1.kind = k2.kind → k1 = k2 := by decide

/-- Only the invalid value has the Invalid kind. -/
theorem kind_inv_invalid (v : RValue) (h : v.kind = .invalid) : v = .invalid := by
  cases v <;> simp_all [RValue.kind]
  case intv k n => cases k <;> simp_all [IKind.kind]
  case uintv k n => cases k <;> simp_all [UKind.kind]
  case floatv k x => cases k <;> simp_all [FKind.kind]

/-- Only bool values have the Bool kind. -/
theorem kind_inv_bool (v : RValue) (h : v.kind = .bool) : ∃ x, v = .boolv x := by
  cases v <;> simp_all [RValue.kind]
  case intv k n => cases k <;> simp_all [IKind.kind]
  case uintv k n => cases k <;> simp_all [UKind.kind]
  case floatv k x => cases k <;> simp_all [FKind.kind]

/-- Only signed integer values have a signed integer kind, and the width
marker is determined by the kind. -/
theorem kind_inv_int (v : RValue) (k : IKind) (h : v.kind = k.kind) :
    ∃ n, v = .intv k n := by
  cases v <;> simp_all [RValue.kind]
  case intv k2 n => exact IKind.kind_inj_int k2 k h
  case uintv k2 n => cases k2 <;> cases k <;> simp_all [UKind.kind, IKind.kind]
  case floatv k2 x => cases k2 <;> cases k <;> simp_all [FKind.kind, IKind.kind]
  all_goals cases k <;> simp_all [IKind.kind]

/-- Only unsigned integer values have an unsigned integer kind, and the
width marker is determined by the kind. -/
theorem kind_inv_uint (v : RValue) (k : UKind) (h : v.kind = k.kind) :
    ∃ n, v = .uintv k n := by
  cases v <;> simp_all [RValue.kind]
  case uintv k2 n => exact UKind.kind_inj_uint k2 k h
  case intv k2 n => cases k2 <;> cases k <;> simp_all [UKind.kind, IKind.kind]
  case floatv k2 x => cases k2 <;> cases k <;> simp_all [FKind.kind, UKind.kind]
  all_goals cases k <;> simp_all [UKind.kind]

/-- Only float values have a float kind, and the width marker is determined
by the kind. -/
theorem kind_inv_float (v : RValue) (k : FKind) (h : v.kind = k.kind) :
    ∃ x, v = .floatv k x := by
  cases v <;> simp_all [RValue.kind]
  case floatv k2 x => exact FKind.kind_inj_float k2 k h
  case intv k2 n => cases k2 <;> cases k <;> simp_all [FKind.kind, IKind.kind]
  case uintv k2 n => cases k2 <;> cases k <;> simp_all [FKind.kind, UKind.kind]
  all_goals cases k <;> simp_all [FKind.kind]

/-- Only string values have the String kind. -/
theorem kind_inv_string (v : RValue) (h : v.kind = .string) : ∃ s, v = .strv s := by
  cases v <;> simp_all [RValue.kind]
  case intv k n => cases k <;> simp_all [IKind.kind]
  case uintv k n => cases k <;> simp_all [UKind.kind]
  case floatv k x => cases k <;> simp_all [FKind.kind]

/-- Only array values have the Array kind. -/
theorem kind_inv_array (v : RValue) (h : v.kind = .array) : ∃ es, v = .arrayv es := by
  cases v <;> simp_all [RValue.kind]
  case intv k n => cases k <;> simp_all [IKind.kind]
  case uintv k n => cases k <;> simp_all [UKind.kind]
  case floatv k x => cases k <;> simp_all [FKind.kind]

/-- Only slice values have the Slice kind. -/
theorem kind_inv_slice (v : RValue) (h : v.kind = .slice) : ∃ es, v = .slicev es := by
  cases v <;> simp_all [RValue.kind]
  case intv k n => cases k <;> simp_all [IKind.kind]
  case uintv k n => cases k <;> simp_all [UKind.kind]
  case floatv k x => cases k <;> simp_all [FKind.kind]

/-- Only map values have the Map kind. -/
theorem kind_inv_map (v : RValue) (h : v.kind = .map) : ∃ es, v = .mapv es := by
  cases v <;> simp_all [RValue.kind]
  case intv k n => cases k <;> simp_all [IKind.kind]
  case uintv k n => cases k <;> simp_all [UKind.kind]
  case floatv k x => cases k <;> simp_all [FKind.kind]

/-- Only struct values have the Struct kind. -/
theorem kind_inv_struct (v : RValue) (h : v.kind = .struct) : ∃ fs, v = .structv fs := by
  cases v <;> simp_all [RValue.kind]
  case intv k n => cases k <;> simp_all [IKind.kind]
  case uintv k n => cases k <;> simp_all [UKind.kind]
  case floatv k x => cases k <;> simp_all [FKind.kind]

/-- Only interface values have the Interface kind. -/
theorem kind_inv_iface (v : RValue) (h : v.kind = .iface) : ∃ o, v = .ifacev o := by
  cases v <;> simp_all [RValue.kind]
  case intv k n => cases k <;> simp_all [IKind.kind]
  case uintv k n => cases k <;> simp_all [UKind.kind]
  case floatv k x => cases k <;> simp_all [FKind.kind]

/-- Only pointer values have the Ptr kind. -/
theorem kind_inv_ptr (v : RValue) (h : v.kind = .ptr) : ∃ o, v = .ptrv o := by
  cases v <;> simp_all [RValue.kind]
  case intv k n => cases k <;> simp_all [IKind.kind]
  case uintv k n => cases k <;> simp_all [UKind.kind]
  case floatv k x => cases k <;> simp_all [FKind.kind]

/-- Only UnsafePointer values have the UnsafePointer kind. -/
theorem kind_inv_rawptr (v : RValue) (h : v.kind = .rawptr) : ∃ p, v = .rawptrv p := by
  cases v <;> simp_all [RValue.kind]
  case intv k n => cases k <;> simp_all [IKind.kind]
  case uintv k n => cases k <;> simp_all [UKind.kind]
  case floatv k x => cases k <;> simp_all [FKind.kind]

/-- No modelled value has a complex, chan or func kind. -/
theorem kind_not_unreachable (v : RValue) :
    v.kind ≠ .complex64 ∧ v.kind ≠ .complex128 ∧ v.kind ≠ .chan ∧ v.kind ≠ .fn := by
  cases v <;> simp_all [RValue.kind]
  case intv k n => cases k <;> simp_all [IKind.kind]
  case uintv k n => cases k <;> simp_all [UKind.kind]
  case floatv k x => cases k <;> simp_all [FKind.kind]

mutual
/-- ptrFree holds of values that contain no pointer anywhere (directly, in
elements, entries, fields or behind interfaces). -/
def ptrFree : RValue → Bool
  | .invalid => true
  | .boolv _ => true
  | .intv _ _ => true
  | .uintv _ _ => true
  | .floatv _ _ => true
  | .strv _ => true
  | .rawptrv _ => true
  | .arrayv es => ptrFreeL es
  | .slicev es => ptrFreeL es
  | .mapv entries => ptrFreeE entries
  | .structv fields => ptrFreeF fields
  | .ifacev (some v) => ptrFree v
  | .ifacev none => true
  | .ptrv _ => false

/-- ptrFreeL is ptrFree on every element of a list. -/
def ptrFreeL : List RValue → Bool
  | [] => true
  | x :: xs => ptrFree x && ptrFreeL xs

/-- ptrFreeE is ptrFree on every key and value of an entry list. -/
def ptrFreeE : List (RValue × RValue) → Bool
  | [] => true
  | (k, v) :: xs => ptrFree k && ptrFree v && ptrFreeE xs

/-- ptrFreeF is ptrFree on every field value of a field list. -/
def ptrFreeF : List (String × Bool × RValue) → Bool
  | [] => true
  | (_, _, v) :: xs => ptrFree v && ptrFreeF xs
end

/-- A pointer-free value never has the Ptr kind. -/
theorem ptrFree_kind_ne_ptr (v : RValue) (h : ptrFree v = true) : v.kind ≠ .ptr := by
  cases v <;> simp_all [RValue.kind, ptrFree]
  case intv k n => cases k <;> simp_all [IKind.kind]
  case uintv k n => cases k <;> simp_all [UKind.kind]
  case floatv k x => cases k <;> simp_all [FKind.kind]

/-- Members of a pointer-free element list are pointer-free. -/
theorem ptrFreeL_mem : ∀ (es : List RValue) (x : RValue),
    ptrFreeL es = true → x ∈ es → ptrFree x = true := by
  intro es
  induction es with
  | nil => intro x _ hx; cases hx
  | cons y ys ih =>
    intro x h hx
    simp only [ptrFreeL, Bool.and_eq_true] at h
    rcases List.mem_cons.1 hx with rfl | hx
    · exact h.1
    · exact ih x h.2 hx

/-- Field lookup in a pointer-free field list is pointer-free. -/
theorem ptrFreeF_fieldByName : ∀ (flds : List (String × Bool × RValue)) (n : String),
    ptrFreeF flds = true → ptrFree (fieldByName flds n) = true := by
  intro flds
  induction flds with
  | nil => intro n _; simp [fieldByName, ptrFree]
  | cons f fs ih =>
    intro n h
    obtain ⟨n0, c0, v0⟩ := f
    simp only [ptrFreeF, Bool.and_eq_true] at h
    simp only [fieldByName]
    by_cases he : n0 = n
    · simp [he, h.1]
    · simp only [he, if_false]
      exact ih n h.2

/-- Unwrapping a pointer-free interface value is pointer-free. -/
theorem ptrFree_unwrapIface (v : RValue) (h : ptrFree v = true) :
    ptrFree (unwrapIface v) = true := by
  cases v <;> simp_all [unwrapIface]
  case ifacev o => cases o <;> simp_all [unwrapIface, ptrFree]

/-- isCmpRes states that an integer is one of the three comparison results. -/
abbrev isCmpRes (r : Int) : Prop := r = -1 ∨ r = 0 ∨ r = 1

/-- cmpElems only produces -1, 0 or 1, given that the pairwise comparisons
below it do. -/
theorem cmpElems_cases : ∀ (ea eb : List RValue),
    (∀ x ∈ ea, ∀ y ∈ eb, ∀ r, CompareValues x y = some r → isCmpRes r) →
    ∀ r, cmpElems ea eb = some r → isCmpRes r := by
  intro ea
  induction ea with
  | nil =>
    intro eb _ r hr
    simp only [cmpElems] at hr
    cases eb <;> simp_all [isCmpRes]
  | cons x xs ih =>
    intro eb H r hr
    cases eb with
    | nil => simp_all [cmpElems, isCmpRes]
    | cons y ys =>
      simp only [cmpElems] at hr
      cases hcv : CompareValues x y with
      | none => simp [hcv] at hr
      | some r0 =>
        simp only [hcv] at hr
        by_cases h0 : r0 = 0
        · subst h0
          simp at hr
          exact ih ys (fun u hu v hv => H u (List.mem_cons_of_mem _ hu) v
            (List.mem_cons_of_mem _ hv)) r hr
        · simp [h0] at hr
          subst hr
          exact H x (List.mem_cons_self _ _) y (List.mem_cons_self _ _) r0 hcv

/-- cmpFields only produces -1, 0 or 1, given that the field-value
comparisons below it do. -/
theorem cmpFields_cases : ∀ (sa sb : List (String × Kind))
    (af bf : List (String × Bool × RValue)),
    (∀ n1 n2 r, CompareValues (fieldByName af n1) (fieldByName bf n2) = some r → isCmpRes r) →
    ∀ r, cmpFields sa sb af bf = some r → isCmpRes r := by
  intro sa
  induction sa with
  | nil =>
    intro sb af bf _ r hr
    simp only [cmpFields] at hr
    cases sb <;> simp_all [isCmpRes]
  | cons f1 t1 ih =>
    intro sb af bf H r hr
    obtain ⟨n1, k1⟩ := f1
    cases sb with
    | nil => simp_all [cmpFields, isCmpRes]
    | cons f2 t2 =>
      obtain ⟨n2, k2⟩ := f2
      simp only [cmpFields] at hr
      by_cases hck : compareKind k1 k2 = 0
      · simp only [hck, ne_eq, not_true_eq_false, if_false] at hr
        by_cases hcn : strCompare n1 n2 = 0
        · simp only [hcn, ne_eq, not_true_eq_false, if_false] at hr
          cases hcv : CompareValues (fieldByName af n1) (fieldByName bf n2) with
          | none => simp [hcv] at hr
          | some r0 =>
            simp only [hcv] at hr
            by_cases h0 : r0 = 0
            · subst h0
              simp at hr
              exact ih t2 af bf H r hr
            · simp [h0] at hr
              subst hr
              exact H n1 n2 r0 hcv
        · simp only [ne_eq, hcn, not_false_eq_true, if_true, Option.some.injEq] at hr
          subst hr
          exact strCompare_cases n1 n2
      · simp only [ne_eq, hck, not_false_eq_true, if_true, Option.some.injEq] at hr
        subst hr
        exact compareKind_cases k1 k2

/-- Constructor-level reduction lemmas for RValue.kind and the getters,
so that rewriting never unfolds these functions on a symbolic operand. -/
@[simp] theorem RValue.kind_invalid : (RValue.invalid).kind = Kind.invalid := rfl

@[simp] theorem RValue.kind_boolv (x : Bool) : (RValue.boolv x).kind = Kind.bool := rfl

@[simp] theorem RValue.kind_intv (k : IKind) (n : Int) : (RValue.intv k n).kind = k.kind := rfl

@[simp] theorem RValue.kind_uintv (k : UKind) (n : Nat) : (RValue.uintv k n).kind = k.kind := rfl

@[simp] theorem RValue.kind_floatv (k : FKind) (x : Rat) : (RValue.floatv k x).kind = k.kind := rfl

@[simp] theorem RValue.kind_strv (s : String) : (RValue.strv s).kind = Kind.string := rfl

@[simp] theorem RValue.kind_arrayv (es : List RValue) : (RValue.arrayv es).kind = Kind.array := rfl

@[simp] theorem RValue.kind_slicev (es : List RValue) : (RValue.slicev es).kind = Kind.slice := rfl

@[simp] theorem RValue.kind_mapv (es : List (RValue × RValue)) : (RValue.mapv es).kind = Kind.map := rfl

@[simp] theorem RValue.kind_structv (fs : List (String × Bool × RValue)) :
    (RValue.structv fs).kind = Kind.struct := rfl

@[simp] theorem RValue.kind_ifacev (o : Option RValue) : (RValue.ifacev o).kind = Kind.iface := rfl

@[simp] theorem RValue.kind_ptrv (o : Option RValue) : (RValue.ptrv o).kind = Kind.ptr := rfl

@[simp] theorem RValue.kind_rawptrv (p : Nat) : (RValue.rawptrv p).kind = Kind.rawptr := rfl

@[simp] theorem RValue.toBool_boolv (x : Bool) : (RValue.boolv x).toBool = some x := rfl

@[simp] theorem RValue.toInt_intv (k : IKind) (n : Int) : (RValue.intv k n).toInt = some n := rfl

@[simp] theorem RValue.toUint_uintv (k : UKind) (n : Nat) : (RValue.uintv k n).toUint = some n := rfl

@[simp] theorem RValue.toFloat_floatv (k : FKind) (x : Rat) : (RValue.floatv k x).toFloat = some x := rfl

@[simp] theorem RValue.toElems_arrayv (es : List RValue) : (RValue.arrayv es).toElems = some es := rfl

@[simp] theorem RValue.toElems_slicev (es : List RValue) : (RValue.slicev es).toElems = some es := rfl

@[simp] theorem RValue.toEntries_mapv (es : List (RValue × RValue)) :
    (RValue.mapv es).toEntries = some es := rfl

@[simp] theorem RValue.toFields_structv (fs : List (String × Bool × RValue)) :
    (RValue.structv fs).toFields = some fs := rfl

@[simp] theorem RValue.toAddr_ptrv (o : Option RValue) : (RValue.ptrv o).toAddr = none := rfl

@[simp] theorem RValue.toAddr_rawptrv (p : Nat) : (RValue.rawptrv p).toAddr = some p := rfl

set_option maxHeartbeats 2000000 in
/-- CompareValues and compareStripped, whenever they return a result at all,
return one of -1, 0, 1.  Strong induction on the combined size of the two
operands, mirroring the recursion of the comparator. -/
theorem cv_range_aux : ∀ N : Nat, ∀ a b : RValue, sizeOf a + sizeOf b ≤ N →
    (∀ r, CompareValues a b = some r → isCmpRes r) ∧
    (∀ r, compareStripped a b = some r → isCmpRes r) := by
  intro N
  induction N using Nat.strong_induction_on with
  | _ N ih =>
    have hCV : ∀ m, m < N → ∀ x y : RValue, sizeOf x + sizeOf y ≤ m →
        ∀ r, CompareValues x y = some r → isCmpRes r :=
      fun m hm x y hxy => (ih m hm x y hxy).1
    have hCS : ∀ a b : RValue, sizeOf a + sizeOf b ≤ N →
        ∀ r, compareStripped a b = some r → isCmpRes r := by
      intro a b hab r hr
      cases a with
      | invalid =>
        rw [compareStripped.eq_def] at hr
        simp only [RValue.kind_invalid, Option.some.injEq] at hr
        subst hr
        omega
      | boolv x =>
        rw [compareStripped.eq_def] at hr
        simp only [RValue.kind_boolv, RValue.toBool_boolv] at hr
        cases hb2 : b.toBool with
        | none => simp [hb2] at hr
        | some y =>
          simp only [hb2, Option.some.injEq] at hr
          subst hr
          split_ifs <;> omega
      | intv k n =>
        cases k <;>
        · rw [compareStripped.eq_def] at hr
          simp only [RValue.kind_intv, IKind.kind, RValue.toInt_intv] at hr
          split at hr
          · simp only [Option.some.injEq] at hr
            subst hr
            exact compareKind_cases _ _
          · cases hb2 : b.toInt with
            | none => simp [hb2] at hr
            | some y =>
              simp only [hb2, Option.some.injEq] at hr
              subst hr
              split_ifs <;> omega
      | uintv k n =>
        cases k <;>
        · rw [compareStripped.eq_def] at hr
          simp only [RValue.kind_uintv, UKind.kind, RValue.toUint_uintv] at hr
          split at hr
          · simp only [Option.some.injEq] at hr
            subst hr
            exact compareKind_cases _ _
          · cases hb2 : b.toUint with
            | none => simp [hb2] at hr
            | some y =>
              simp only [hb2, Option.some.injEq] at hr
              subst hr
              split_ifs <;> omega
      | floatv k x =>
        cases k <;>
        · rw [compareStripped.eq_def] at hr
          simp only [RValue.kind_floatv, FKind.kind, RValue.toFloat_floatv] at hr
          split at hr
          · simp only [Option.some.injEq] at hr
            subst hr
            exact compareKind_cases _ _
          · cases hb2 : b.toFloat with
            | none => simp [hb2] at hr
            | some y =>
              simp only [hb2, Option.some.injEq] at hr
              subst hr
              split_ifs <;> omega
      | strv s =>
        rw [compareStripped.eq_def] at hr
        simp only [RValue.kind_strv, Option.some.injEq] at hr
        subst hr
        exact strCompare_cases _ _
      | arrayv ea =>
        rw [compareStripped.eq_def] at hr
        simp only [RValue.kind_arrayv] at hr
        split at hr
        · simp only [Option.some.injEq] at hr
          subst hr
          exact compareKind_cases _ _
        · simp only [cmpSeq] at hr
          cases hlb : b.toLen with
          | none => simp [hlb] at hr
          | some lb =>
            simp only [hlb] at hr
            split at hr
            · cases hbe : b.toElems with
              | none =>
                simp only [hbe] at hr
                split at hr
                · simp only [Option.some.injEq] at hr
                  subst hr
                  omega
                · simp at hr
              | some eb =>
                simp only [hbe] at hr
                refine cmpElems_cases ea eb ?_ r hr
                intro u hu v hv r0 hcv
                have s1 : sizeOf u < sizeOf ea := List.sizeOf_lt_of_mem hu
                have s2 : sizeOf v < sizeOf eb := List.sizeOf_lt_of_mem hv
                have s3 : sizeOf eb < sizeOf b := toElems_sizeOf_lt b eb hbe
                have s4 : sizeOf (RValue.arrayv ea) = 1 + sizeOf ea := by simp
                exact hCV (sizeOf u + sizeOf v) (by omega) u v le_rfl r0 hcv
            · split at hr <;> simp only [Option.some.injEq] at hr <;> subst hr <;> omega
      | slicev ea =>
        rw [compareStripped.eq_def] at hr
        simp only [RValue.kind_slicev] at hr
        split at hr
        · simp only [Option.some.injEq] at hr
          subst hr
          exact compareKind_cases _ _
        · simp only [cmpSeq] at hr
          cases hlb : b.toLen with
          | none => simp [hlb] at hr
          | some lb =>
            simp only [hlb] at hr
            split at hr
            · cases hbe : b.toElems with
              | none =>
                simp only [hbe] at hr
                split at hr
                · simp only [Option.some.injEq] at hr
                  subst hr
                  omega
                · simp at hr
              | some eb =>
                simp only [hbe] at hr
                refine cmpElems_cases ea eb ?_ r hr
                intro u hu v hv r0 hcv
                have s1 : sizeOf u < sizeOf ea := List.sizeOf_lt_of_mem hu
                have s2 : sizeOf v < sizeOf eb := List.sizeOf_lt_of_mem hv
                have s3 : sizeOf eb < sizeOf b := toElems_sizeOf_lt b eb hbe
                have s4 : sizeOf (RValue.slicev ea) = 1 + sizeOf ea := by simp
                exact hCV (sizeOf u + sizeOf v) (by omega) u v le_rfl r0 hcv
            · split at hr <;> simp only [Option.some.injEq] at hr <;> subst hr <;> omega
      | mapv ae =>
        rw [compareStripped.eq_def] at hr
        simp only [RValue.kind_mapv] at hr
        simp only [cmpMaps] at hr
        cases hlb : b.toLen with
        | none => simp [hlb] at hr
        | some lb =>
          simp only [hlb] at hr
          split at hr
          · simp only [Option.some.injEq] at hr
            subst hr
            omega
          · split at hr
            · simp only [Option.some.injEq] at hr
              subst hr
              omega
            · cases hbe : b.toEntries with
              | none => simp [hbe] at hr
              | some be =>
                simp only [hbe] at hr
                split at hr
                · simp only [Option.some.injEq] at hr
                  subst hr
                  exact cmpKeyLists_cases _ _
                · simp only [Option.some.injEq] at hr
                  subst hr
                  omega
      | structv fa =>
        rw [compareStripped.eq_def] at hr
        simp only [RValue.kind_structv] at hr
        simp only [cmpStructs] at hr
        cases hfb : b.toFields with
        | none => simp [hfb] at hr
        | some fb =>
          simp only [hfb] at hr
          split at hr
          · simp only [Option.some.injEq] at hr
            subst hr
            omega
          · split at hr
            · simp only [Option.some.injEq] at hr
              subst hr
              omega
            · refine cmpFields_cases _ _ fa fb ?_ r hr
              intro n1 n2 r0 hcv
              have s1 := fieldByName_sizeOf_le fa n1
              have s2 := fieldByName_sizeOf_le fb n2
              have s3 : sizeOf fb < sizeOf b := toFields_sizeOf_lt b fb hfb
              have s4 : sizeOf (RValue.structv fa) = 1 + sizeOf fa := by simp
              exact hCV (sizeOf (fieldByName fa n1) + sizeOf (fieldByName fb n2))
                (by omega) _ _ le_rfl r0 hcv
      | ifacev o =>
        rw [compareStripped.eq_def] at hr
        simp only [RValue.kind_ifacev] at hr
        simp only [cmpIfaces] at hr
        have s1 : sizeOf (unwrapIface (RValue.ifacev o)) < sizeOf (RValue.ifacev o) :=
          unwrapIface_sizeOf_lt _ rfl
        have s2 := unwrapIface_sizeOf_le b
        exact hCV (sizeOf (unwrapIface (RValue.ifacev o)) + sizeOf (unwrapIface b))
          (by omega) _ _ le_rfl r hr
      | ptrv o =>
        rw [compareStripped.eq_def] at hr
        simp [RValue.kind_ptrv, RValue.toAddr_ptrv] at hr
      | rawptrv p =>
        rw [compareStripped.eq_def] at hr
        simp only [RValue.kind_rawptrv, RValue.toAddr_rawptrv] at hr
        cases hb2 : b.toAddr with
        | none => simp [hb2] at hr
        | some y =>
          simp only [hb2, Option.some.injEq] at hr
          subst hr
          split_ifs <;> omega
    intro a b hab
    refine ⟨?_, hCS a b hab⟩
    intro r hr
    rw [CompareValues.eq_def] at hr
    by_cases h0 : compareKind a.kind b.kind = 0
    · simp only [h0, ne_eq, not_true_eq_false, if_false] at hr
      split at hr
      · simp only [Option.some.injEq] at hr
        subst hr
        omega
      · split at hr
        · simp only [Option.some.injEq] at hr
          subst hr
          omega
        · have s1 := strip_sizeOf_le a
          have s2 := strip_sizeOf_le b
          exact hCS _ _ (by omega) r hr
    · simp only [ne_eq, h0, not_false_eq_true, if_true, Option.some.injEq] at hr
      subst hr
      exact compareKind_cases _ _

theorem CompareValues_range (a b : RValue) (r : Int) (h : CompareValues a b = some r) :
    r = -1 ∨ r = 0 ∨ r = 1 :=
  (cv_range_aux (sizeOf a + sizeOf b) a b le_rfl).1 r h

@[simp] theorem RValue.toLen_arrayv (es : List RValue) : (RValue.arrayv es).toLen = some es.length := rfl

@[simp] theorem RValue.toLen_slicev (es : List RValue) : (RValue.slicev es).toLen = some es.length := rfl

@[simp] theorem RValue.toLen_mapv (es : List (RValue × RValue)) :
    (RValue.mapv es).toLen = some es.length := rfl

@[simp] theorem RValue.goString_strv (s : String) : (RValue.strv s).goString = s := rfl

/-- ptrFree holds on a pointer value never. -/
theorem ptrFree_ptrv (o : Option RValue) : ptrFree (RValue.ptrv o) = false := by
  simp [ptrFree]

/-- ptrFree on an array is ptrFreeL of its elements. -/
theorem ptrFree_arrayv (es : List RValue) : ptrFree (RValue.arrayv es) = ptrFreeL es := by
  simp [ptrFree]

/-- ptrFree on a slice is ptrFreeL of its elements. -/
theorem ptrFree_slicev (es : List RValue) : ptrFree (RValue.slicev es) = ptrFreeL es := by
  simp [ptrFree]

/-- ptrFree on a struct is ptrFreeF of its fields. -/
theorem ptrFree_structv (fs : List (String × Bool × RValue)) :
    ptrFree (RValue.structv fs) = ptrFreeF fs := by
  simp [ptrFree]

/-- cmpElems is antisymmetric given that the pairwise comparisons below it
are. -/
theorem cmpElems_antisymm : ∀ (ea eb : List RValue),
    (∀ x ∈ ea, ∀ y ∈ eb, ∃ r, CompareValues x y = some r ∧ CompareValues y x = some (-r)) →
    ∃ r, cmpElems ea eb = some r ∧ cmpElems eb ea = some (-r) := by
  intro ea
  induction ea with
  | nil =>
    intro eb _
    refine ⟨0, ?_, ?_⟩ <;> cases eb <;> simp [cmpElems]
  | cons x xs ih =>
    intro eb H
    cases eb with
    | nil => exact ⟨0, by simp [cmpElems], by simp [cmpElems]⟩
    | cons y ys =>
      obtain ⟨r0, h1, h2⟩ := H x (List.mem_cons_self _ _) y (List.mem_cons_self _ _)
      by_cases hz : r0 = 0
      · subst hz
        simp only [neg_zero] at h2
        obtain ⟨r, e1, e2⟩ := ih ys (fun u hu v hv =>
          H u (List.mem_cons_of_mem _ hu) v (List.mem_cons_of_mem _ hv))
        refine ⟨r, ?_, ?_⟩ <;> simp [cmpElems, h1, h2, e1, e2]
      · refine ⟨r0, ?_, ?_⟩ <;> simp [cmpElems, h1, h2, hz]

/-- cmpFields is antisymmetric given that the field-value comparisons below
it are. -/
theorem cmpFields_antisymm : ∀ (sa sb : List (String × Kind))
    (af bf : List (String × Bool × RValue)),
    (∀ n1 n2, ∃ r, CompareValues (fieldByName af n1) (fieldByName bf n2) = some r ∧
      CompareValues (fieldByName bf n2) (fieldByName af n1) = some (-r)) →
    ∃ r, cmpFields sa sb af bf = some r ∧ cmpFields sb sa bf af = some (-r) := by
  intro sa
  induction sa with
  | nil =>
    intro sb af bf _
    refine ⟨0, ?_, ?_⟩ <;> cases sb <;> simp [cmpFields]
  | cons f1 t1 ih =>
    intro sb af bf H
    obtain ⟨n1, k1⟩ := f1
    cases sb with
    | nil => exact ⟨0, by simp [cmpFields], by simp [cmpFields]⟩
    | cons f2 t2 =>
      obtain ⟨n2, k2⟩ := f2
      have hck := compareKind_antisymm k1 k2
      have hcn := strCompare_antisymm n1 n2
      by_cases hk0 : compareKind k1 k2 = 0
      · have hk1 : compareKind k2 k1 = 0 := by
          rw [compareKind_antisymm k2 k1, hk0, neg_zero]
        by_cases hn0 : strCompare n1 n2 = 0
        · have hn1 : strCompare n2 n1 = 0 := by
            rw [strCompare_antisymm n2 n1, hn0, neg_zero]
          obtain ⟨r0, h1, h2⟩ := H n1 n2
          by_cases hz : r0 = 0
          · subst hz
            simp only [neg_zero] at h2
            obtain ⟨r, e1, e2⟩ := ih t2 af bf H
            refine ⟨r, ?_, ?_⟩ <;>
              simp [cmpFields, hk0, hk1, hn0, hn1, h1, h2, e1, e2]
          · refine ⟨r0, ?_, ?_⟩ <;>
              simp [cmpFields, hk0, hk1, hn0, hn1, h1, h2, hz]
        · have hn1 : strCompare n2 n1 ≠ 0 := by
            rw [strCompare_antisymm n2 n1]
            simpa using hn0
          refine ⟨strCompare n1 n2, ?_, ?_⟩ <;>
            simp [cmpFields, hk0, hk1, hn0, hn1, strCompare_antisymm n2 n1]
      · have hk1 : compareKind k2 k1 ≠ 0 := by
          rw [compareKind_antisymm k2 k1]
          simpa using hk0
        refine ⟨compareKind k1 k2, ?_, ?_⟩ <;>
          simp [cmpFields, hk0, hk1, compareKind_antisymm k2 k1]

set_option maxHeartbeats 2000000 in
/-- CompareValues is antisymmetric on pointer-free operands: it returns a
result on both orders and the results are negatives of each other.  Strong
induction on the combined size of the operands. -/
theorem cv_antisymm_aux : ∀ N : Nat, ∀ a b : RValue, sizeOf a + sizeOf b ≤ N →
    ptrFree a = true → ptrFree b = true →
    ∃ r, CompareValues a b = some r ∧ CompareValues b a = some (-r) := by
  intro N
  induction N using Nat.strong_induction_on with
  | _ N ih =>
    have hCS : ∀ a b : RValue, sizeOf a + sizeOf b ≤ N →
        ptrFree a = true → ptrFree b = true → a.kind = b.kind →
        ∃ r, compareStripped a b = some r ∧ compareStripped b a = some (-r) := by
      intro a b hab hpa hpb hk
      cases a with
      | invalid =>
        simp only [RValue.kind_invalid] at hk
        obtain rfl := kind_inv_invalid b hk.symm
        exact ⟨0, by rw [compareStripped.eq_def]; simp,
          by rw [compareStripped.eq_def]; simp⟩
      | boolv x =>
        simp only [RValue.kind_boolv] at hk
        obtain ⟨y, rfl⟩ := kind_inv_bool b hk.symm
        cases x <;> cases y
        · exact ⟨0, by rw [compareStripped.eq_def]; simp,
            by rw [compareStripped.eq_def]; simp⟩
        · exact ⟨-1, by rw [compareStripped.eq_def]; simp,
            by rw [compareStripped.eq_def]; simp⟩
        · exact ⟨1, by rw [compareStripped.eq_def]; simp,
            by rw [compareStripped.eq_def]; simp⟩
        · exact ⟨0, by rw [compareStripped.eq_def]; simp,
            by rw [compareStripped.eq_def]; simp⟩
      | intv k n =>
        simp only [RValue.kind_intv] at hk
        obtain ⟨m, rfl⟩ := kind_inv_int b k hk.symm
        cases k <;>
        · rcases lt_trichotomy n m with h | h | h
          · refine ⟨-1, ?_, ?_⟩ <;>
              (rw [compareStripped.eq_def]
               simp only [RValue.kind_intv, IKind.kind, compareKind_self, ne_eq,
                 not_true_eq_false, if_false, RValue.toInt_intv, Option.some.injEq]
               split_ifs <;> omega)
          · subst h
            refine ⟨0, ?_, ?_⟩ <;>
              (rw [compareStripped.eq_def]
               simp only [RValue.kind_intv, IKind.kind, compareKind_self, ne_eq,
                 not_true_eq_false, if_false, RValue.toInt_intv, Option.some.injEq]
               split_ifs <;> omega)
          · refine ⟨1, ?_, ?_⟩ <;>
              (rw [compareStripped.eq_def]
               simp only [RValue.kind_intv, IKind.kind, compareKind_self, ne_eq,
                 not_true_eq_false, if_false, RValue.toInt_intv, Option.some.injEq]
               split_ifs <;> omega)
      | uintv k n =>
        simp only [RValue.kind_uintv] at hk
        obtain ⟨m, rfl⟩ := kind_inv_uint b k hk.symm
        cases k <;>
        · rcases lt_trichotomy n m with h | h | h
          · refine ⟨-1, ?_, ?_⟩ <;>
              (rw [compareStripped.eq_def]
               simp only [RValue.kind_uintv, UKind.kind, compareKind_self, ne_eq,
                 not_true_eq_false, if_false, RValue.toUint_uintv, Option.some.injEq]
               split_ifs <;> omega)
          · subst h
            refine ⟨0, ?_, ?_⟩ <;>
              (rw [compareStripped.eq_def]
               simp only [RValue.kind_uintv, UKind.kind, compareKind_self, ne_eq,
                 not_true_eq_false, if_false, RValue.toUint_uintv, Option.some.injEq]
               split_ifs <;> omega)
          · refine ⟨1, ?_, ?_⟩ <;>
              (rw [compareStripped.eq_def]
               simp only [RValue.kind_uintv, UKind.kind, compareKind_self, ne_eq,
                 not_true_eq_false, if_false, RValue.toUint_uintv, Option.some.injEq]
               split_ifs <;> omega)
      | floatv k x =>
        simp only [RValue.kind_floatv] at hk
        obtain ⟨y, rfl⟩ := kind_inv_float b k hk.symm
        cases k <;>
        · rcases lt_trichotomy x y with h | h | h
          · refine ⟨-1, ?_, ?_⟩ <;>
              (rw [compareStripped.eq_def]
               simp only [RValue.kind_floatv, FKind.kind, compareKind_self, ne_eq,
                 not_true_eq_false, if_false, RValue.toFloat_floatv, Option.some.injEq]
               split_ifs <;> first | rfl | omega | linarith | simp_all)
          · subst h
            refine ⟨0, ?_, ?_⟩ <;>
              (rw [compareStripped.eq_def]
               simp only [RValue.kind_floatv, FKind.kind, compareKind_self, ne_eq,
                 not_true_eq_false, if_false, RValue.toFloat_floatv, Option.some.injEq]
               split_ifs <;> simp_all)
          · refine ⟨1, ?_, ?_⟩ <;>
              (rw [compareStripped.eq_def]
               simp only [RValue.kind_floatv, FKind.kind, compareKind_self, ne_eq,
                 not_true_eq_false, if_false, RValue.toFloat_floatv, Option.some.injEq]
               split_ifs <;> first | rfl | omega | linarith | simp_all)
      | strv s =>
        simp only [RValue.kind_strv] at hk
        obtain ⟨t, rfl⟩ := kind_inv_string b hk.symm
        refine ⟨strCompare s t, ?_, ?_⟩ <;> rw [compareStripped.eq_def]
        · simp
        · simp [strCompare_antisymm t s]
      | arrayv ea =>
        simp only [RValue.kind_arrayv] at hk
        obtain ⟨eb, rfl⟩ := kind_inv_array b hk.symm
        rw [ptrFree_arrayv] at hpa hpb
        rcases lt_trichotomy ea.length eb.length with h | h | h
        · refine ⟨-1, ?_, ?_⟩ <;>
            (rw [compareStripped.eq_def]
             simp [cmpSeq, compareKind_self, h, Nat.ne_of_lt, Nat.ne_of_gt,
               Nat.not_lt.2 (Nat.le_of_lt h)]) <;> omega
        · have H : ∀ x ∈ ea, ∀ y ∈ eb, ∃ r, CompareValues x y = some r ∧
              CompareValues y x = some (-r) := by
            intro x hx y hy
            have s1 : sizeOf x < sizeOf ea := List.sizeOf_lt_of_mem hx
            have s2 : sizeOf y < sizeOf eb := List.sizeOf_lt_of_mem hy
            have s3 : sizeOf (RValue.arrayv ea) = 1 + sizeOf ea := by simp
            have s4 : sizeOf (RValue.arrayv eb) = 1 + sizeOf eb := by simp
            exact ih (sizeOf x + sizeOf y) (by omega) x y le_rfl
              (ptrFreeL_mem ea x hpa hx) (ptrFreeL_mem eb y hpb hy)
          obtain ⟨r, e1, e2⟩ := cmpElems_antisymm ea eb H
          refine ⟨r, ?_, ?_⟩ <;>
            (rw [compareStripped.eq_def]
             simp [cmpSeq, compareKind_self, h, e1, e2])
        · refine ⟨1, ?_, ?_⟩ <;>
            (rw [compareStripped.eq_def]
             simp [cmpSeq, compareKind_self, h, Nat.ne_of_lt, Nat.ne_of_gt,
               Nat.not_lt.2 (Nat.le_of_lt h)]) <;> omega
      | slicev ea =>
        simp only [RValue.kind_slicev] at hk
        obtain ⟨eb, rfl⟩ := kind_inv_slice b hk.symm
        rw [ptrFree_slicev] at hpa hpb
        rcases lt_trichotomy ea.length eb.length with h | h | h
        · refine ⟨-1, ?_, ?_⟩ <;>
            (rw [compareStripped.eq_def]
             simp [cmpSeq, compareKind_self, h, Nat.ne_of_lt, Nat.ne_of_gt,
               Nat.not_lt.2 (Nat.le_of_lt h)]) <;> omega
        · have H : ∀ x ∈ ea, ∀ y ∈ eb, ∃ r, CompareValues x y = some r ∧
              CompareValues y x = some (-r) := by
            intro x hx y hy
            have s1 : sizeOf x < sizeOf ea := List.sizeOf_lt_of_mem hx
            have s2 : sizeOf y < sizeOf eb := List.sizeOf_lt_of_mem hy
            have s3 : sizeOf (RValue.slicev ea) = 1 + sizeOf ea := by simp
            have s4 : sizeOf (RValue.slicev eb) = 1 + sizeOf eb := by simp
            exact ih (sizeOf x + sizeOf y) (by omega) x y le_rfl
              (ptrFreeL_mem ea x hpa hx) (ptrFreeL_mem eb y hpb hy)
          obtain ⟨r, e1, e2⟩ := cmpElems_antisymm ea eb H
          refine ⟨r, ?_, ?_⟩ <;>
            (rw [compareStripped.eq_def]
             simp [cmpSeq, compareKind_self, h, e1, e2])
        · refine ⟨1, ?_, ?_⟩ <;>
            (rw [compareStripped.eq_def]
             simp [cmpSeq, compareKind_self, h, Nat.ne_of_lt, Nat.ne_of_gt,
               Nat.not_lt.2 (Nat.le_of_lt h)]) <;> omega
      | mapv ae =>
        simp only [RValue.kind_mapv] at hk
        obtain ⟨be, rfl⟩ := kind_inv_map b hk.symm
        rcases lt_trichotomy ae.length be.length with h | h | h
        · refine ⟨-1, ?_, ?_⟩ <;>
            (rw [compareStripped.eq_def]
             simp [cmpMaps, h, Nat.lt_asymm h, Nat.ne_of_lt h, Nat.ne_of_gt h]) <;> omega
        · have hkeys := cmpKeyLists_antisymm
            (sortByLess (fun x y => strLess x.goString y.goString) (ae.map Prod.fst))
            (sortByLess (fun x y => strLess x.goString y.goString) (be.map Prod.fst))
          by_cases hz : cmpKeyLists
              (sortByLess (fun x y => strLess x.goString y.goString) (ae.map Prod.fst))
              (sortByLess (fun x y => strLess x.goString y.goString) (be.map Prod.fst)) = 0
          · have hz2 : cmpKeyLists
                (sortByLess (fun x y => strLess x.goString y.goString) (be.map Prod.fst))
                (sortByLess (fun x y => strLess x.goString y.goString) (ae.map Prod.fst)) = 0 := by
              rw [cmpKeyLists_antisymm, hz, neg_zero]
            refine ⟨0, ?_, ?_⟩ <;>
              (rw [compareStripped.eq_def]
               simp [cmpMaps, h, hz, hz2])
          · have hz2 : cmpKeyLists
                (sortByLess (fun x y => strLess x.goString y.goString) (be.map Prod.fst))
                (sortByLess (fun x y => strLess x.goString y.goString) (ae.map Prod.fst)) ≠ 0 := by
              rw [cmpKeyLists_antisymm]
              simpa using hz
            refine ⟨cmpKeyLists
                (sortByLess (fun x y => strLess x.goString y.goString) (ae.map Prod.fst))
                (sortByLess (fun x y => strLess x.goString y.goString) (be.map Prod.fst)),
              ?_, ?_⟩ <;>
              (rw [compareStripped.eq_def]
               simp [cmpMaps, h, hz, hz2, hkeys])
        · refine ⟨1, ?_, ?_⟩ <;>
            (rw [compareStripped.eq_def]
             simp [cmpMaps, h, Nat.lt_asymm h, Nat.ne_of_lt h, Nat.ne_of_gt h]) <;> omega
      | structv fa =>
        simp only [RValue.kind_structv] at hk
        obtain ⟨fb, rfl⟩ := kind_inv_struct b hk.symm
        rw [ptrFree_structv] at hpa hpb
        rcases lt_trichotomy (publicFields fa).length (publicFields fb).length with h | h | h
        · refine ⟨-1, ?_, ?_⟩ <;>
            (rw [compareStripped.eq_def]
             simp [cmpStructs, h, Nat.lt_asymm h]) <;> omega
        · have H : ∀ n1 n2, ∃ r, CompareValues (fieldByName fa n1) (fieldByName fb n2) =
              some r ∧ CompareValues (fieldByName fb n2) (fieldByName fa n1) = some (-r) := by
            intro n1 n2
            have s1 := fieldByName_sizeOf_le fa n1
            have s2 := fieldByName_sizeOf_le fb n2
            have s3 : sizeOf (RValue.structv fa) = 1 + sizeOf fa := by simp
            have s4 : sizeOf (RValue.structv fb) = 1 + sizeOf fb := by simp
            exact ih (sizeOf (fieldByName fa n1) + sizeOf (fieldByName fb n2)) (by omega)
              _ _ le_rfl (ptrFreeF_fieldByName fa n1 hpa) (ptrFreeF_fieldByName fb n2 hpb)
          obtain ⟨r, e1, e2⟩ := cmpFields_antisymm
            (sortByLess (fun x y => strLess x.1 y.1) (publicFields fa))
            (sortByLess (fun x y => strLess x.1 y.1) (publicFields fb)) fa fb H
          refine ⟨r, ?_, ?_⟩ <;>
            (rw [compareStripped.eq_def]
             simp [cmpStructs, h, e1, e2])
        · refine ⟨1, ?_, ?_⟩ <;>
            (rw [compareStripped.eq_def]
             simp [cmpStructs, h, Nat.lt_asymm h]) <;> omega
      | ifacev oa =>
        simp only [RValue.kind_ifacev] at hk
        obtain ⟨ob, rfl⟩ := kind_inv_iface b hk.symm
        have s1 : sizeOf (unwrapIface (RValue.ifacev oa)) < sizeOf (RValue.ifacev oa) :=
          unwrapIface_sizeOf_lt _ rfl
        have s2 : sizeOf (unwrapIface (RValue.ifacev ob)) < sizeOf (RValue.ifacev ob) :=
          unwrapIface_sizeOf_lt _ rfl
        obtain ⟨r, e1, e2⟩ := ih
          (sizeOf (unwrapIface (RValue.ifacev oa)) + sizeOf (unwrapIface (RValue.ifacev ob)))
          (by omega) _ _ le_rfl (ptrFree_unwrapIface _ hpa) (ptrFree_unwrapIface _ hpb)
        refine ⟨r, ?_, ?_⟩ <;> rw [compareStripped.eq_def] <;>
          simp only [RValue.kind_ifacev, cmpIfaces] <;> assumption
      | ptrv o =>
        rw [ptrFree_ptrv] at hpa
        exact absurd hpa (by simp)
      | rawptrv p =>
        simp only [RValue.kind_rawptrv] at hk
        obtain ⟨q, rfl⟩ := kind_inv_rawptr b hk.symm
        rcases lt_trichotomy p q with h | h | h
        · refine ⟨-1, ?_, ?_⟩ <;>
            (rw [compareStripped.eq_def]
             simp only [RValue.kind_rawptrv, RValue.toAddr_rawptrv, Option.some.injEq]
             split_ifs <;> omega)
        · subst h
          refine ⟨0, ?_, ?_⟩ <;>
            (rw [compareStripped.eq_def]
             simp only [RValue.kind_rawptrv, RValue.toAddr_rawptrv, Option.some.injEq]
             split_ifs <;> omega)
        · refine ⟨1, ?_, ?_⟩ <;>
            (rw [compareStripped.eq_def]
             simp only [RValue.kind_rawptrv, RValue.toAddr_rawptrv, Option.some.injEq]
             split_ifs <;> omega)
    intro a b hab hpa hpb
    by_cases hk : a.kind = b.kind
    · have hsa := strip_of_kind_ne_ptr a (ptrFree_kind_ne_ptr a hpa)
      have hsb := strip_of_kind_ne_ptr b (ptrFree_kind_ne_ptr b hpb)
      obtain ⟨r, e1, e2⟩ := hCS a b hab hpa hpb hk
      have hc0 : compareKind a.kind b.kind = 0 := (compareKind_eq_zero_iff _ _).2 hk
      have hc1 : compareKind b.kind a.kind = 0 := (compareKind_eq_zero_iff _ _).2 hk.symm
      refine ⟨r, ?_, ?_⟩ <;> rw [CompareValues.eq_def]
      · simp [hc0, hsa, hsb, e1]
      · simp [hc1, hsa, hsb, e2]
    · refine ⟨compareKind a.kind b.kind, cv_kind_ne a b hk, ?_⟩
      rw [cv_kind_ne b a (fun he => hk he.symm), compareKind_antisymm b.kind a.kind]

/-- CompareValues is antisymmetric on pointer-free operands. -/
theorem CompareValues_antisymm (a b : RValue) (hpa : ptrFree a = true)
    (hpb : ptrFree b = true) :
    ∃ r, CompareValues a b = some r ∧ CompareValues b a = some (-r) :=
  cv_antisymm_aux (sizeOf a + sizeOf b) a b le_rfl hpa hpb

/-- C9: when the two operands have different kinds, CompareValues returns
the order of their kind enumeration indices immediately, independent of the
operand values; in particular comparing int 5 with string "5" yields a
negative result because the int kind precedes the string kind. -/
theorem c9_kind_dominance :
    (∀ a b : RValue, a.kind ≠ b.kind →
      CompareValues a b = some (compareKind a.kind b.kind)) ∧
    (∀ a b a2 b2 : RValue, a.kind = a2.kind → b.kind = b2.kind → a.kind ≠ b.kind →
      CompareValues a b = CompareValues a2 b2) ∧
    CompareValues (.intv .i 5) (.strv "5") = some (-1) := by
  refine ⟨cv_kind_ne, ?_, ?_⟩
  · intro a b a2 b2 ha hb hne
    rw [cv_kind_ne a b hne, cv_kind_ne a2 b2 (by rw [← ha, ← hb]; exact hne), ha, hb]
  · rw [cv_kind_ne _ _ (by decide)]
    decide

/-- C9 witness: the kind-dominance equation applied at a concrete pair of
operands of different kinds. -/
theorem c9_witness :
    CompareValues (.boolv true) (.strv "x") =
      some (compareKind (RValue.boolv true).kind (RValue.strv "x").kind) :=
  c9_kind_dominance.1 _ _ (by decide)

/-- C10: the comparator detects public struct fields by CanSet; when every
field of both struct operands reports CanSet false (as for non-addressable
struct values, for example struct values passed directly to
CompareInterfaces), all fields are filtered out, both public-field counts
are 0, and the structs compare as 0 regardless of their field values. -/
theorem c10_struct_canset (fa fb : List (String × Bool × RValue))
    (h1 : ∀ f ∈ fa, f.2.1 = false) (h2 : ∀ f ∈ fb, f.2.1 = false) :
    CompareValues (.structv fa) (.structv fb) = some 0 := by
  have e1 : publicFields fa = [] := by
    have : fa.filter (fun f => f.2.1) = [] := by
      rw [List.filter_eq_nil]
      intro f hf
      simp [h1 f hf]
    simp [publicFields, this]
  have e2 : publicFields fb = [] := by
    have : fb.filter (fun f => f.2.1) = [] := by
      rw [List.filter_eq_nil]
      intro f hf
      simp [h2 f hf]
    simp [publicFields, this]
  rw [CompareValues.eq_def]
  simp only [RValue.kind_structv, compareKind_self, ne_eq, not_true_eq_false, if_false,
    strip, gt_iff_lt, lt_irrefl]
  rw [compareStripped.eq_def]
  simp [RValue.kind_structv, cmpStructs, e1, e2, sortByLess, cmpFields]

/-- C10 witness: two Can-Set-free struct operands with different field
values and counts compare as 0. -/
theorem c10_witness :
    CompareValues (.structv [("Name", false, .strv "a")])
      (.structv [("Name", false, .strv "ZZZ"), ("Age", false, .intv .i 9)]) = some 0 :=
  c10_struct_canset _ _ (by decide) (by decide)

/-- C1: recorded behavior of the code at the failing input of the map-value
claim.  Two equal-size string-keyed maps with the same key compare as 0 no
matter what the stored values are: the value-comparison loop of the Map case
is dead code (its guard compares the kinds of the two map operands, which
are always both Map), so CompareValues never inspects map values.  The claim
and the doc comment of compare.go say the corresponding values should be
compared pairwise, which would give a nonzero result for different values. -/
theorem c1_map_values_never_compared (va vb : RValue) :
    CompareValues (.mapv [(.strv "k", va)]) (.mapv [(.strv "k", vb)]) = some 0 := by
  rw [CompareValues.eq_def]
  simp only [RValue.kind_mapv, compareKind_self, ne_eq, not_true_eq_false, if_false,
    strip, gt_iff_lt, lt_irrefl]
  rw [compareStripped.eq_def]
  simp [RValue.kind_mapv, cmpMaps, sortByLess, insertByLess, cmpKeyLists,
    compareKind_self, strCompare, lexCompare]

/-- C2 counterexample: antisymmetry fails on the code as claimed.  The
operands are a pointer to the empty string and a pointer to int 5; both
calls dispatch into the named cases of the claim (the string case in one
direction, the signed integer case in the other) and both return -1, so
CompareValues a b is not the negation of CompareValues b a. -/
theorem c2_counterexample :
    CompareValues (.ptrv (some (.strv ""))) (.ptrv (some (.intv .i 5))) = some (-1) ∧
    CompareValues (.ptrv (some (.intv .i 5))) (.ptrv (some (.strv ""))) = some (-1) := by
  constructor
  · rw [CompareValues.eq_def]
    simp only [RValue.kind_ptrv, compareKind_self, ne_eq, not_true_eq_false, if_false,
      strip, gt_iff_lt, lt_irrefl]
    rw [compareStripped.eq_def]
    simp [RValue.goString, strCompare, lexCompare]
  · rw [CompareValues.eq_def]
    simp only [RValue.kind_ptrv, compareKind_self, ne_eq, not_true_eq_false, if_false,
      strip, gt_iff_lt, lt_irrefl]
    rw [compareStripped.eq_def]
    simp [IKind.kind, compareKind, Kind.idx]

/-- C2 amended: CompareValues, whenever it returns a result, returns only
-1, 0 or +1; and antisymmetry CompareValues(a,b) = -CompareValues(b,a)
holds for the numeric, string, sequence, map and struct cases whenever the
operands are pointer-free (contain no pointer anywhere), the situation in
which those cases compare operands of equal kinds.  Same-depth pointer
chains ending in bases of different kinds can break antisymmetry, and
pointer chains can also make the comparator panic instead of returning. -/
theorem c2_amended :
    (∀ a b : RValue, ∀ r, CompareValues a b = some r → r = -1 ∨ r = 0 ∨ r = 1) ∧
    (∀ a b : RValue, ptrFree a = true → ptrFree b = true →
      ∃ r, CompareValues a b = some r ∧ CompareValues b a = some (-r)) :=
  ⟨fun a b => CompareValues_range a b, fun a b => CompareValues_antisymm a b⟩

/-- C2 witness: the amended claim applied at concrete inputs: the range part
at a concrete comparison that returns -1, the antisymmetry part at a
pointer-free string/int pair. -/
theorem c2_witness :
    ((-1 : Int) = -1 ∨ (-1 : Int) = 0 ∨ (-1 : Int) = 1) ∧
    (∃ r, CompareValues (.strv "a") (.intv .i 1) = some r ∧
      CompareValues (.intv .i 1) (.strv "a") = some (-r)) :=
  ⟨c2_amended.1 (.intv .i 1) (.strv "b")
      (-1) (by rw [cv_kind_ne _ _ (by decide)]; decide),
    c2_amended.2 (.strv "a") (.intv .i 1) (by simp [ptrFree]) (by simp [ptrFree])⟩

/-- C3 counterexample: the result of CompareValues on pointer operands does
not depend only on the base values: a double pointer to int 5 compares
greater than a single pointer to int 5, while two single pointers to int 5
compare equal, because the code compares the dereferencing depths. -/
theorem c3_counterexample :
    CompareValues (.ptrv (some (.ptrv (some (.intv .i 5))))) (.ptrv (some (.intv .i 5)))
      = some 1 ∧
    CompareValues (.ptrv (some (.intv .i 5))) (.ptrv (some (.intv .i 5))) = some 0 := by
  constructor
  · rw [CompareValues.eq_def]
    simp [strip, compareKind_self]
  · rw [CompareValues.eq_def]
    simp only [RValue.kind_ptrv, compareKind_self, ne_eq, not_true_eq_false, if_false,
      strip, gt_iff_lt, lt_irrefl]
    rw [compareStripped.eq_def]
    simp [IKind.kind, compareKind_self]

/-- C3 amended: CompareValues strips pointer indirection from both operands
fully, but the depth of indirection is itself compared: for two operands of
pointer kind, if the stripped depths differ the deeper operand sorts
greater, regardless of the base values; when the depths are equal and the
base kinds are equal, the result is exactly that of comparing the base
values. -/
theorem c3_amended (a b : RValue) (ha : a.kind = .ptr) (hb : b.kind = .ptr) :
    ((strip a).1 > (strip b).1 → CompareValues a b = some 1) ∧
    ((strip b).1 > (strip a).1 → CompareValues a b = some (-1)) ∧
    ((strip a).1 = (strip b).1 → (strip a).2.kind = (strip b).2.kind →
      CompareValues a b = CompareValues (strip a).2 (strip b).2) := by
  have hk0 : compareKind a.kind b.kind = 0 := by
    rw [ha, hb]
    exact compareKind_self _
  refine ⟨?_, ?_, ?_⟩
  · intro hd
    rw [CompareValues.eq_def]
    simp [hk0, hd]
  · intro hd
    rw [CompareValues.eq_def]
    simp only [hk0, ne_eq, not_true_eq_false, if_false]
    rw [if_neg (by omega), if_pos hd]
  · intro hd he
    have hna : (strip a).2.kind ≠ .ptr := strip_kind_ne_ptr a
    have hnb : (strip b).2.kind ≠ .ptr := strip_kind_ne_ptr b
    have hk1 : compareKind (strip a).2.kind (strip b).2.kind = 0 := by
      rw [he]
      exact compareKind_self _
    rw [CompareValues.eq_def]
    simp only [hk0, ne_eq, not_true_eq_false, if_false, hd, gt_iff_lt, lt_irrefl]
    rw [CompareValues.eq_def]
    simp only [hk1, ne_eq, not_true_eq_false, if_false,
      strip_of_kind_ne_ptr _ hna, strip_of_kind_ne_ptr _ hnb, gt_iff_lt, lt_irrefl]

/-- C3 witness: the amended claim applied to a double pointer and a single
pointer to equal base values, where the depth decides. -/
theorem c3_witness :
    CompareValues (.ptrv (some (.ptrv (some (.intv .i 3))))) (.ptrv (some (.intv .i 7)))
      = some 1 :=
  (c3_amended (.ptrv (some (.ptrv (some (.intv .i 3))))) (.ptrv (some (.intv .i 7)))
    rfl rfl).1 (by simp [strip])

/-- goSplitChars splits a character list at every occurrence of the
separator, mirroring strings.Split with a one-character separator: the
split of an empty text is one empty piece, and separators at the ends
produce empty pieces. -/
def goSplitChars (sep : Char) : List Char → List (List Char)
  | [] => [[]]
  | c :: cs =>
    let r := goSplitChars sep cs
    if c = sep then [] :: r
    else
      match r with
      | h :: t => (c :: h) :: t
      | [] => [[c]]

/-- goSplit embeds strings.Split with a one-character separator. -/
def goSplit (sep : Char) (s : String) : List String :=
  (goSplitChars sep s.data).map fun cs => String.mk cs

/-- goIsSpace models unicode.IsSpace on the whitespace characters the
converter can meet in its inputs (ASCII whitespace; the exotic Unicode
space code points are outside the model and outside every claim). -/
def goIsSpace (c : Char) : Bool :=
  c = ' ' ∨ c = '\t' ∨ c = '\n' ∨ c = '\r' ∨ c = '\x0b' ∨ c = '\x0c'

/-- goTrim embeds strings.TrimSpace: remove leading and trailing
whitespace. -/
def goTrim (s : String) : String :=
  String.mk (((s.data.dropWhile goIsSpace).reverse.dropWhile goIsSpace).reverse)

/-- GoErr models the error classes the converter can return: the syntax and
range errors of the strconv parsers, and the sentinel errors ErrParse and
ErrNotImplemented of the reflectex package. -/
inductive GoErr where
  | numSyntax
  | numRange
  | errParse
  | errNotImplemented
deriving DecidableEq

/-- digitsVal is the base-10 value of a digit list. -/
def digitsVal (cs : List Char) : Nat :=
  cs.foldl (fun a c => a * 10 + (c.toNat - 48)) 0

/-- parseGoBool embeds strconv.ParseBool: exactly the listed texts are
accepted. -/
def parseGoBool (s : String) : Except GoErr Bool :=
  match s with
  | "1" | "t" | "T" | "true" | "TRUE" | "True" => .ok true
  | "0" | "f" | "F" | "false" | "FALSE" | "False" => .ok false
  | _ => .error .numSyntax

/-- parseGoUint embeds strconv.ParseUint with base 10 and bit size 64: a
nonempty digit string without a sign prefix; values beyond 64 bits give the
range error. -/
def parseGoUint (s : String) : Except GoErr Nat :=
  let cs := s.data
  if cs = [] then .error .numSyntax
  else if cs.all Char.isDigit then
    let n := digitsVal cs
    if n < 2 ^ 64 then .ok n else .error .numRange
  else .error .numSyntax

/-- parseGoInt embeds strconv.ParseInt with base 10 and bit size 64: an
optional sign followed by a nonempty digit string; values outside the
signed 64-bit range give the range error. -/
def parseGoInt (s : String) : Except GoErr Int :=
  match s.data with
  | [] => .error .numSyntax
  | c :: rest =>
    let p : Bool × List Char :=
      if c = '-' then (true, rest)
      else if c = '+' then (false, rest)
      else (false, c :: rest)
    if p.2 = [] then .error .numSyntax
    else if p.2.all Char.isDigit then
      let n := digitsVal p.2
      if p.1 then
        if n ≤ 2 ^ 63 then .ok (-(n : Int)) else .error .numRange
      else
        if n < 2 ^ 63 then .ok (n : Int) else .error .numRange
    else .error .numSyntax

/-- parseGoFloat embeds the decimal subset of strconv.ParseFloat the claims
can meet: optional sign, integer digits, optional fraction, optional
decimal exponent.  The value is kept as an exact rational; rounding to the
requested binary precision, hexadecimal floats, underscores and the
inf/NaN spellings are outside the model, and no claim depends on them. -/
def parseGoFloat (s : String) : Except GoErr Rat :=
  match s.data with
  | [] => .error .numSyntax
  | c0 :: rest0 =>
    let p : Bool × List Char :=
      if c0 = '-' then (true, rest0)
      else if c0 = '+' then (false, rest0)
      else (false, c0 :: rest0)
    let ip := p.2.takeWhile Char.isDigit
    let cs1 := p.2.dropWhile Char.isDigit
    let q : List Char × List Char :=
      match cs1 with
      | '.' :: t => (t.takeWhile Char.isDigit, t.dropWhile Char.isDigit)
      | _ => ([], cs1)
    if ip = [] ∧ q.1 = [] then .error .numSyntax
    else
      let mant : Rat := (digitsVal ip : Rat) + (digitsVal q.1 : Rat) / ((10 : Rat) ^ q.1.length)
      match q.2 with
      | [] => .ok (if p.1 then -mant else mant)
      | e :: t =>
        if e = 'e' ∨ e = 'E' then
          match t with
          | [] => .error .numSyntax
          | c1 :: t1 =>
            let pe : Bool × List Char :=
              if c1 = '-' then (true, t1)
              else if c1 = '+' then (false, t1)
              else (false, c1 :: t1)
            if pe.2 ≠ [] ∧ pe.2.all Char.isDigit then
              let ex := digitsVal pe.2
              let m2 := if pe.1 then mant / (10 : Rat) ^ ex else mant * (10 : Rat) ^ ex
              .ok (if p.1 then -m2 else m2)
            else .error .numSyntax
        else .error .numSyntax

/-- wrapInt models the Go conversion of an int64 value to a narrower signed
integer type: keep the low bits, reinterpreted as a signed value of the
target width. -/
def wrapInt (k : IKind) (n : Int) : Int :=
  ((n + 2 ^ (k.width - 1)) % 2 ^ k.width) - 2 ^ (k.width - 1)

/-- wrapUint models the Go conversion of a uint64 value to a narrower
unsigned integer type: keep the low bits. -/
def wrapUint (k : UKind) (n : Nat) : Nat :=
  n % 2 ^ k.width

/-- RType models the Go types a conversion target can have.  Complex,
channel and function types are left out: complex conversion is
unimplemented in the repository and the latter two take the ErrUnsupported
path that no claim exercises. -/
inductive RType where
  | bool
  | int (k : IKind)
  | uint (k : UKind)
  | float32
  | float64
  | string
  | array (n : Nat) (elem : RType)
  | slice (elem : RType)
  | map (key val : RType)
  | struct (fields : List (String × RType))
  | ptr (elem : RType)

/-- Every RType has positive size (used by termination proofs). -/
theorem RType.sizeOf_pos : ∀ t : RType, 0 < sizeOf t := by
  intro t
  cases t <;> simp <;> omega

mutual
/-- zeroValue is the zero Go value of a type, the content of a freshly
allocated reflect.New target.  Fields of a freshly allocated struct are
addressable, hence their CanSet flag is true. -/
def zeroValue : RType → RValue
  | .bool => .boolv false
  | .int k => .intv k 0
  | .uint k => .uintv k 0
  | .float32 => .floatv .f32 0
  | .float64 => .floatv .f64 0
  | .string => .strv ""
  | .array n t => .arrayv (List.replicate n (zeroValue t))
  | .slice _ => .slicev []
  | .map _ _ => .mapv []
  | .struct fs => .structv (zeroFields fs)
  | .ptr _ => .ptrv none

/-- zeroFields is zeroValue over a struct field list. -/
def zeroFields : List (String × RType) → List (String × Bool × RValue)
  | [] => []
  | (n, t) :: rest => (n, true, zeroValue t) :: zeroFields rest
end

/-- setMapIdx embeds reflect.Value.SetMapIndex on the entry-list model of a
map: replace the value stored under an equal key, or append a new entry. -/
def setMapIdx : List (RValue × RValue) → RValue → RValue → List (RValue × RValue)
  | [], k, v => [(k, v)]
  | (k0, v0) :: rest, k, v =>
    if rvBEq k0 k then (k0, v) :: rest else (k0, v0) :: setMapIdx rest k v

/-- StringToBoolValue embeds StringToBoolValue of src/convert.go lines
94-101.  The pair is (returned error, final content of the target). -/
def StringToBoolValue (s : String) (out : RValue) : Option GoErr × RValue :=
  match parseGoBool s with
  | .error e => (some e, out)
  | .ok b => (none, .boolv b)

/-- StringToIntValue embeds StringToIntValue of src/convert.go lines
104-111: parse at 64 bits, then convert to the exact width of the target
type, wrapping on overflow. -/
def StringToIntValue (s : String) (k : IKind) (out : RValue) : Option GoErr × RValue :=
  match parseGoInt s with
  | .error e => (some e, out)
  | .ok n => (none, .intv k (wrapInt k n))

/-- StringToUintValue embeds StringToUintValue of src/convert.go lines
114-121. -/
def StringToUintValue (s : String) (k : UKind) (out : RValue) : Option GoErr × RValue :=
  match parseGoUint s with
  | .error e => (some e, out)
  | .ok n => (none, .uintv k (wrapUint k n))

/-- StringToFloat32Value embeds StringToFloat32Value of src/convert.go
lines 124-131.  The binary rounding of ParseFloat at 32 bits is not
modelled (values stay exact rationals). -/
def StringToFloat32Value (s : String) (out : RValue) : Option GoErr × RValue :=
  match parseGoFloat s with
  | .error e => (some e, out)
  | .ok x => (none, .floatv .f32 x)

/-- StringToFloat64Value embeds StringToFloat64Value of src/convert.go
lines 134-141. -/
def StringToFloat64Value (s : String) (out : RValue) : Option GoErr × RValue :=
  match parseGoFloat s with
  | .error e => (some e, out)
  | .ok x => (none, .floatv .f64 x)

/-- StringToStringValue embeds StringToStringValue of src/convert.go lines
164-167: the text is the value. -/
def StringToStringValue (s : String) (out : RValue) : Option GoErr × RValue :=
  (none, .strv s)

/-- StringToStructValue embeds StringToStructValue of src/convert.go lines
220-223: struct conversion is not implemented and the target is left
untouched. -/
def StringToStructValue (s : String) (out : RValue) : Option GoErr × RValue :=
  (some .errNotImplemented, out)

mutual
/-- StringToValue embeds StringToValue of src/convert.go lines 51-91: the
kind dispatch of the converter.  The result pair is (returned error, final
content of the target): an error leaves the target exactly as it was.  The
TextUnmarshaler branch of lines 52-58 is not modelled because no modelled
type implements TextUnmarshaler, the IsValid guard of lines 59-61 never
fires because every modelled target is a valid value, and the complex
arms and the final ErrUnsupported return are unreachable because RType has
no complex, channel or function types. -/
def StringToValue (s : String) (t : RType) (out : RValue) : Option GoErr × RValue :=
  match t with
  | .bool => StringToBoolValue s out
  | .int k => StringToIntValue s k out
  | .uint k => StringToUintValue s k out
  | .float32 => StringToFloat32Value s out
  | .float64 => StringToFloat64Value s out
  | .string => StringToStringValue s out
  | .array n t1 => StringToArrayValue s n t1 out
  | .slice t1 => StringToSliceValue s t1 out
  | .map kt vt => StringToMapValue s kt vt out
  | .struct _ => StringToStructValue s out
  | .ptr t1 => StringToPointerValue s t1 out
termination_by (sizeOf t, 0)

/-- StringToArrayValue embeds StringToArrayValue of src/convert.go lines
170-180: allocate a fresh zero array, split the input at commas, convert
the trimmed elements into the slots with index below both lengths, and
commit the array to the target only when every conversion succeeded. -/
def StringToArrayValue (s : String) (n : Nat) (t : RType) (out : RValue) :
    Option GoErr × RValue :=
  match fillArraySlots t (goSplit ',' s) (List.replicate n (zeroValue t)) with
  | (some e, _) => (some e, out)
  | (none, rs) => (none, .arrayv rs)
termination_by (sizeOf t, 2 + (goSplit ',' s).length)

/-- fillArraySlots is the index loop of StringToArrayValue: walk the
element texts and the array slots in step, converting the trimmed text into
each slot, stopping at the shorter of the two and propagating the first
error. -/
def fillArraySlots (t : RType) : List String → List RValue → Option GoErr × List RValue
  | [], slots => (none, slots)
  | _ :: _, [] => (none, [])
  | str :: ss, sl :: rest =>
    match StringToValue (goTrim str) t sl with
    | (some e, _) => (some e, sl :: rest)
    | (none, v) =>
      match fillArraySlots t ss rest with
      | (some e, rs) => (some e, rs)
      | (none, rs) => (none, v :: rs)
termination_by strs slots => (sizeOf t, 1 + strs.length)

/-- StringToSliceValue embeds StringToSliceValue of src/convert.go lines
183-193: split the input at commas, convert every element (untrimmed) into
the zeroed slots of a fresh slice of exactly that many elements, and commit
the slice to the target only when every conversion succeeded. -/
def StringToSliceValue (s : String) (t : RType) (out : RValue) : Option GoErr × RValue :=
  match convSliceElems t (goSplit ',' s) with
  | (some e, _) => (some e, out)
  | (none, rs) => (none, .slicev rs)
termination_by (sizeOf t, 2 + (goSplit ',' s).length)

/-- convSliceElems is the index loop of StringToSliceValue: convert each
element text into a fresh zero slot, propagating the first error. -/
def convSliceElems (t : RType) : List String → Option GoErr × List RValue
  | [] => (none, [])
  | str :: ss =>
    match StringToValue str t (zeroValue t) with
    | (some e, _) => (some e, [])
    | (none, v) =>
      match convSliceElems t ss with
      | (some e, rs) => (some e, rs)
      | (none, rs) => (none, v :: rs)
termination_by strs => (sizeOf t, 1 + strs.length)

/-- StringToMapValue embeds StringToMapValue of src/convert.go lines
196-217: split the input into comma-separated pairs and convert them into a
fresh map, committing it to the target only when every pair succeeded. -/
def StringToMapValue (s : String) (kt vt : RType) (out : RValue) : Option GoErr × RValue :=
  match convMapPairs kt vt (goSplit ',' s) [] with
  | (some e, _) => (some e, out)
  | (none, entries) => (none, .mapv entries)
termination_by (sizeOf kt + sizeOf vt, 2 + (goSplit ',' s).length)

/-- convMapPairs is the pair loop of StringToMapValue: each pair text must
split at the pair separator into exactly a key and a value, else ErrParse;
key and value are converted into fresh zero values of the declared key and
value types and inserted, so a duplicate key overwrites the earlier
entry. -/
def convMapPairs (kt vt : RType) :
    List String → List (RValue × RValue) → Option GoErr × List (RValue × RValue)
  | [], acc => (none, acc)
  | p :: ps, acc =>
    match goSplit '=' p with
    | [k, v] =>
      match StringToValue k kt (zeroValue kt) with
      | (some e, _) => (some e, acc)
      | (none, kv) =>
        match StringToValue v vt (zeroValue vt) with
        | (some e, _) => (some e, acc)
        | (none, vv) => convMapPairs kt vt ps (setMapIdx acc kv vv)
    | _ => (some .errParse, acc)
termination_by ps acc => (sizeOf kt + sizeOf vt, 1 + ps.length)
decreasing_by
  all_goals simp_wf
  all_goals first
    | exact Prod.Lex.left _ _
        (by have hk := RType.sizeOf_pos kt; have hv := RType.sizeOf_pos vt; omega)
    | exact Prod.Lex.right _ (by omega)

/-- StringToPointerValue embeds StringToPointerValue of src/convert.go
lines 226-233: allocate a fresh zero pointee, convert into it, and point
the target at it only on success. -/
def StringToPointerValue (s : String) (t : RType) (out : RValue) : Option GoErr × RValue :=
  match StringToValue s t (zeroValue t) with
  | (some e, _) => (some e, out)
  | (none, v) => (none, .ptrv (some v))
termination_by (sizeOf t, 1)
end

theorem stv_bool (s : String) (out : RValue) :
    StringToValue s .bool out = StringToBoolValue s out := by
  rw [StringToValue.eq_def]

theorem stv_int (s : String) (k : IKind) (out : RValue) :
    StringToValue s (.int k) out = StringToIntValue s k out := by
  rw [StringToValue.eq_def]

theorem stv_uint (s : String) (k : UKind) (out : RValue) :
    StringToValue s (.uint k) out = StringToUintValue s k out := by
  rw [StringToValue.eq_def]

theorem stv_float32 (s : String) (out : RValue) :
    StringToValue s .float32 out = StringToFloat32Value s out := by
  rw [StringToValue.eq_def]

theorem stv_float64 (s : String) (out : RValue) :
    StringToValue s .float64 out = StringToFloat64Value s out := by
  rw [StringToValue.eq_def]

theorem stv_string (s : String) (out : RValue) :
    StringToValue s .string out = StringToStringValue s out := by
  rw [StringToValue.eq_def]

theorem stv_array (s : String) (n : Nat) (t : RType) (out : RValue) :
    StringToValue s (.array n t) out = StringToArrayValue s n t out := by
  rw [StringToValue.eq_def]

theorem stv_slice (s : String) (t : RType) (out : RValue) :
    StringToValue s (.slice t) out = StringToSliceValue s t out := by
  rw [StringToValue.eq_def]

theorem stv_map (s : String) (kt vt : RType) (out : RValue) :
    StringToValue s (.map kt vt) out = StringToMapValue s kt vt out := by
  rw [StringToValue.eq_def]

theorem stv_struct (s : String) (fs : List (String × RType)) (out : RValue) :
    StringToValue s (.struct fs) out = StringToStructValue s out := by
  rw [StringToValue.eq_def]

theorem stv_ptr (s : String) (t : RType) (out : RValue) :
    StringToValue s (.ptr t) out = StringToPointerValue s t out := by
  rw [StringToValue.eq_def]

theorem StringToValue_err_snd (s : String) (t : RType) (out : RValue) (e : GoErr)
    (h : (StringToValue s t out).1 = some e) : (StringToValue s t out).2 = out := by
  cases t with
  | bool => rw [stv_bool] at h ⊢; simp only [StringToBoolValue] at h ⊢; split at h <;> simp_all
  | int k => rw [stv_int] at h ⊢; simp only [StringToIntValue] at h ⊢; split at h <;> simp_all
  | uint k => rw [stv_uint] at h ⊢; simp only [StringToUintValue] at h ⊢; split at h <;> simp_all
  | float32 => rw [stv_float32] at h ⊢; simp only [StringToFloat32Value] at h ⊢; split at h <;> simp_all
  | float64 => rw [stv_float64] at h ⊢; simp only [StringToFloat64Value] at h ⊢; split at h <;> simp_all
  | string => rw [stv_string] at h; simp [StringToStringValue] at h
  | array n t1 =>
    rw [stv_array] at h ⊢
    rw [StringToArrayValue.eq_def] at h ⊢
    split at h <;> simp_all
  | slice t1 =>
    rw [stv_slice] at h ⊢
    rw [StringToSliceValue.eq_def] at h ⊢
    split at h <;> simp_all
  | map kt vt =>
    rw [stv_map] at h ⊢
    rw [StringToMapValue.eq_def] at h ⊢
    split at h <;> simp_all
  | struct fs => rw [stv_struct]; simp [StringToStructValue]
  | ptr t1 =>
    rw [stv_ptr] at h ⊢
    rw [StringToPointerValue.eq_def] at h ⊢
    split at h <;> simp_all

theorem setMapIdx_lww (acc : List (RValue × RValue)) (k v1 v2 : RValue)
    (hk : rvBEq k k = true) :
    setMapIdx (setMapIdx acc k v1) k v2 = setMapIdx acc k v2 := by
  induction acc with
  | nil => simp [setMapIdx, hk]
  | cons e rest ih =>
    obtain ⟨k0, v0⟩ := e
    by_cases h0 : rvBEq k0 k
    · simp [setMapIdx, h0]
    · simp [setMapIdx, h0, ih]

theorem convSliceElems_none (t : RType) :
    ∀ (strs : List String) (rs : List RValue),
      convSliceElems t strs = (none, rs) →
      rs.length = strs.length ∧
      ∀ i, i < strs.length →
        StringToValue (strs.getD i "") t (zeroValue t) = (none, rs.getD i .invalid) := by
  intro strs
  induction strs with
  | nil =>
    intro rs h
    simp only [convSliceElems] at h
    simp_all
  | cons str ss ih =>
    intro rs h
    simp only [convSliceElems] at h
    split at h
    · simp at h
    · rename_i v heq
      split at h
      · simp at h
      · rename_i rs1 heq1
        simp only [Prod.mk.injEq] at h
        obtain ⟨-, h2⟩ := h
        subst h2
        obtain ⟨ihlen, ihidx⟩ := ih rs1 heq1
        refine ⟨by simp [ihlen], ?_⟩
        intro i hi
        cases i with
        | zero => simpa using heq
        | succ j =>
          simp only [List.getD_cons_succ]
          exact ihidx j (by simpa using hi)

theorem fillArraySlots_none (t : RType) :
    ∀ (strs : List String) (slots rs : List RValue),
      fillArraySlots t strs slots = (none, rs) →
      rs.length = slots.length ∧
      (∀ i, strs.length ≤ i → rs.getD i .invalid = slots.getD i .invalid) ∧
      (∀ i, i < strs.length → i < slots.length →
        StringToValue (goTrim (strs.getD i "")) t (slots.getD i .invalid)
          = (none, rs.getD i .invalid)) := by
  intro strs
  induction strs with
  | nil =>
    intro slots rs h
    simp only [fillArraySlots] at h
    simp only [Prod.mk.injEq] at h
    obtain ⟨-, h2⟩ := h
    subst h2
    exact ⟨rfl, fun i _ => rfl, fun i hi _ => absurd hi (by simp)⟩
  | cons str ss ih =>
    intro slots rs h
    cases slots with
    | nil =>
      simp only [fillArraySlots] at h
      simp only [Prod.mk.injEq] at h
      obtain ⟨-, h2⟩ := h
      subst h2
      exact ⟨rfl, fun i _ => rfl, fun i _ hi => absurd hi (by simp)⟩
    | cons sl rest =>
      simp only [fillArraySlots] at h
      split at h
      · simp at h
      · rename_i v heq
        split at h
        · simp at h
        · rename_i rs1 heq1
          simp only [Prod.mk.injEq] at h
          obtain ⟨-, h2⟩ := h
          subst h2
          obtain ⟨ihlen, ihskip, ihidx⟩ := ih rest rs1 heq1
          refine ⟨by simp [ihlen], ?_, ?_⟩
          · intro i hle
            cases i with
            | zero => simp at hle
            | succ j =>
              simp only [List.getD_cons_succ]
              exact ihskip j (by simpa using hle)
          · intro i hi hislot
            cases i with
            | zero => simpa using heq
            | succ j =>
              simp only [List.getD_cons_succ]
              exact ihidx j (by simpa using hi) (by simpa using hislot)

theorem convMapPairs_str_err (ps : List String) :
    ∀ acc, ((convMapPairs .string .string ps acc).1 = some .errParse ↔
      ∃ p ∈ ps, (goSplit '=' p).length ≠ 2) ∧
      ((convMapPairs .string .string ps acc).1 = none ∨
       (convMapPairs .string .string ps acc).1 = some .errParse) := by
  induction ps with
  | nil => intro acc; simp [convMapPairs]
  | cons p ps ih =>
    intro acc
    simp only [convMapPairs]
    split
    · rename_i k v heq
      simp only [stv_string, StringToStringValue]
      constructor
      · rw [(ih _).1]
        constructor
        · rintro ⟨q, hq, hql⟩
          exact ⟨q, by simp [hq], hql⟩
        · rintro ⟨q, hq, hql⟩
          rcases List.mem_cons.mp hq with rfl | hq2
          · exact absurd (by simp [heq]) hql
          · exact ⟨q, hq2, hql⟩
      · exact (ih _).2
    · rename_i hne
      refine ⟨⟨fun _ => ⟨p, by simp, ?_⟩, fun _ => rfl⟩, Or.inr rfl⟩
      intro hlen
      rcases hl : goSplit '=' p with _ | ⟨a, _ | ⟨b, _ | _⟩⟩ <;> simp [hl] at hlen ⊢
      exact hne a b hl

theorem getD_replicate_of_lt (a d : RValue) : ∀ n i, i < n →
    (List.replicate n a).getD i d = a := by
  intro n
  induction n with
  | zero => intro i h; omega
  | succ m ih =>
    intro i h
    cases i with
    | zero => rfl
    | succ j => simpa [List.replicate] using ih j (by omega)

/-- C4: an error from any sub-conversion is returned and the target is left
unchanged; demonstrated on slice, map and array targets holding prior
content. -/
theorem c4_no_partial_commit :
    (∀ (s : String) (t : RType) (out : RValue) (e : GoErr),
        (StringToValue s t out).1 = some e → (StringToValue s t out).2 = out) ∧
    StringToValue "1,x,2" (.slice (.int .i)) (.slicev [.intv .i 7]) =
      (some .numSyntax, .slicev [.intv .i 7]) ∧
    StringToValue "a=1,bad" (.map .string .string) (.mapv [(.strv "z", .strv "9")]) =
      (some .errParse, .mapv [(.strv "z", .strv "9")]) ∧
    StringToValue "1, x ,2" (.array 3 (.int .i))
        (.arrayv [.intv .i 5, .intv .i 5, .intv .i 5]) =
      (some .numSyntax, .arrayv [.intv .i 5, .intv .i 5, .intv .i 5]) := by
  refine ⟨fun s t out e h => StringToValue_err_snd s t out e h, ?_, ?_, ?_⟩ <;>
    simp +decide [StringToValue, StringToSliceValue, StringToMapValue, StringToArrayValue,
      convSliceElems, convMapPairs, fillArraySlots, StringToIntValue, StringToStringValue,
      zeroValue, parseGoInt, goSplit, goSplitChars, goTrim, goIsSpace, digitsVal, wrapInt,
      IKind.width, setMapIdx, rvBEq, List.replicate]

theorem c4_witness :
    (StringToValue "x" (.slice (.int .i)) (.slicev [])).2 = .slicev [] :=
  c4_no_partial_commit.1 "x" (.slice (.int .i)) (.slicev []) .numSyntax (by
    simp +decide [StringToValue, StringToSliceValue, convSliceElems, StringToIntValue,
      zeroValue, parseGoInt, goSplit, goSplitChars, digitsVal])

/-- C5: map conversion splits pairs at the comma and each pair at the pair
delimiter into exactly key and value (else ErrParse), inserting
sequentially with last write winning on duplicate keys. -/
theorem c5_map_pairs :
    (∀ out, StringToValue "a=1,b=2" (.map .string .string) out =
      (none, .mapv [(.strv "a", .strv "1"), (.strv "b", .strv "2")])) ∧
    (∀ out, StringToValue "a=1,bad" (.map .string .string) out = (some .errParse, out)) ∧
    (∀ out, StringToValue "a=1,a=2" (.map .string .string) out =
      (none, .mapv [(.strv "a", .strv "2")])) ∧
    (∀ (acc : List (RValue × RValue)) (k v1 v2 : RValue), rvBEq k k = true →
      setMapIdx (setMapIdx acc k v1) k v2 = setMapIdx acc k v2) ∧
    (∀ (s : String) (out : RValue),
      (StringToValue s (.map .string .string) out).1 = some .errParse ↔
        ∃ p ∈ goSplit ',' s, (goSplit '=' p).length ≠ 2) := by
  refine ⟨?_, ?_, ?_, setMapIdx_lww, ?_⟩
  · intro out
    simp +decide [StringToValue, StringToMapValue, convMapPairs, StringToStringValue,
      zeroValue, setMapIdx, rvBEq, goSplit, goSplitChars]
  · intro out
    simp +decide [StringToValue, StringToMapValue, convMapPairs, StringToStringValue,
      zeroValue, setMapIdx, rvBEq, goSplit, goSplitChars]
  · intro out
    simp +decide [StringToValue, StringToMapValue, convMapPairs, StringToStringValue,
      zeroValue, setMapIdx, rvBEq, goSplit, goSplitChars]
  · intro s out
    obtain ⟨hiff, hcases⟩ := convMapPairs_str_err (goSplit ',' s) []
    rw [stv_map, StringToMapValue.eq_def]
    split
    · rename_i e acc2 heq
      rw [heq] at hiff
      simpa using hiff
    · rename_i entries heq
      rw [heq] at hiff
      simpa using hiff

theorem c5_witness :
    setMapIdx (setMapIdx [] (.strv "a") (.strv "1")) (.strv "a") (.strv "2") =
      setMapIdx [] (.strv "a") (.strv "2") :=
  c5_map_pairs.2.2.2.1 [] (.strv "a") (.strv "1") (.strv "2") (by simp [rvBEq])

/-- C6: array conversion fills exactly the indices below both the array
length and the element count; extra elements are dropped (even malformed
ones) and missing slots keep the zero value. -/
theorem c6_array_truncation :
    (∀ (s : String) (n : Nat) (t : RType) (out rs0 : RValue),
        StringToValue s (.array n t) out = (none, rs0) →
        ∃ rs : List RValue, rs0 = .arrayv rs ∧ rs.length = n ∧
          (∀ i, (goSplit ',' s).length ≤ i → i < n → rs.getD i .invalid = zeroValue t) ∧
          (∀ i, i < n → i < (goSplit ',' s).length →
            StringToValue (goTrim ((goSplit ',' s).getD i "")) t (zeroValue t)
              = (none, rs.getD i .invalid))) ∧
    StringToValue "9,8,7,6,5" (.array 5 (.int .i)) .invalid =
      (none, .arrayv [.intv .i 9, .intv .i 8, .intv .i 7, .intv .i 6, .intv .i 5]) ∧
    StringToValue "9,8" (.array 5 (.int .i)) .invalid =
      (none, .arrayv [.intv .i 9, .intv .i 8, .intv .i 0, .intv .i 0, .intv .i 0]) ∧
    StringToValue "9,8,7,6,5,x" (.array 5 (.int .i)) .invalid =
      (none, .arrayv [.intv .i 9, .intv .i 8, .intv .i 7, .intv .i 6, .intv .i 5]) := by
  refine ⟨?_, ?_, ?_, ?_⟩
  · intro s n t out rs0 h
    rw [stv_array, StringToArrayValue.eq_def] at h
    split at h
    · simp at h
    · rename_i rs heq
      simp only [Prod.mk.injEq] at h
      obtain ⟨-, h2⟩ := h
      subst h2
      obtain ⟨hlen, hskip, hidx⟩ := fillArraySlots_none t (goSplit ',' s) _ _ heq
      refine ⟨rs, rfl, by simpa using hlen, ?_, ?_⟩
      · intro i hle hin
        rw [hskip i hle]
        exact getD_replicate_of_lt _ _ n i hin
      · intro i hin hlt
        have h2 := hidx i hlt (by simpa using hin)
        rwa [getD_replicate_of_lt _ _ n i hin] at h2
  all_goals
    simp +decide [StringToValue, StringToArrayValue, fillArraySlots, StringToIntValue,
      zeroValue, goSplit, goSplitChars, goTrim, goIsSpace, parseGoInt, wrapInt, digitsVal,
      IKind.width, List.replicate]

theorem c6_witness :
    ∃ rs : List RValue,
      RValue.arrayv [RValue.intv .i 9, RValue.intv .i 8, RValue.intv .i 0,
          RValue.intv .i 0, RValue.intv .i 0] = .arrayv rs ∧ rs.length = 5 ∧
        (∀ i, (goSplit ',' "9,8").length ≤ i → i < 5 →
          rs.getD i .invalid = zeroValue (.int .i)) ∧
        (∀ i, i < 5 → i < (goSplit ',' "9,8").length →
          StringToValue (goTrim ((goSplit ',' "9,8").getD i "")) (.int .i)
              (zeroValue (.int .i)) = (none, rs.getD i .invalid)) :=
  c6_array_truncation.1 "9,8" 5 (.int .i) .invalid _ (by
    simp +decide [StringToValue, StringToArrayValue, fillArraySlots, StringToIntValue,
      zeroValue, goSplit, goSplitChars, goTrim, goIsSpace, parseGoInt, wrapInt, digitsVal,
      IKind.width, List.replicate])

/-- C7: slice conversion yields exactly one element per comma-separated
input element, each converted (untrimmed) into a fresh zero slot. -/
theorem c7_slice_exact :
    (∀ (s : String) (t : RType) (out rs0 : RValue),
        StringToValue s (.slice t) out = (none, rs0) →
        ∃ rs : List RValue, rs0 = .slicev rs ∧ rs.length = (goSplit ',' s).length ∧
          ∀ i, i < (goSplit ',' s).length →
            StringToValue ((goSplit ',' s).getD i "") t (zeroValue t)
              = (none, rs.getD i .invalid)) ∧
    StringToValue "one,two,three" (.slice .string) .invalid =
      (none, .slicev [.strv "one", .strv "two", .strv "three"]) := by
  refine ⟨?_, ?_⟩
  · intro s t out rs0 h
    rw [stv_slice, StringToSliceValue.eq_def] at h
    split at h
    · simp at h
    · rename_i rs heq
      simp only [Prod.mk.injEq] at h
      obtain ⟨-, h2⟩ := h
      subst h2
      obtain ⟨hlen, hidx⟩ := convSliceElems_none t (goSplit ',' s) _ heq
      exact ⟨rs, rfl, hlen, hidx⟩
  · simp +decide [StringToValue, StringToSliceValue, convSliceElems, StringToStringValue,
      zeroValue, goSplit, goSplitChars]

theorem c7_witness :
    ∃ rs : List RValue,
      RValue.slicev [RValue.strv "one", RValue.strv "two", RValue.strv "three"]
          = .slicev rs ∧
        rs.length = (goSplit ',' "one,two,three").length ∧
        ∀ i, i < (goSplit ',' "one,two,three").length →
          StringToValue ((goSplit ',' "one,two,three").getD i "") .string
              (zeroValue .string) = (none, rs.getD i .invalid) :=
  c7_slice_exact.1 "one,two,three" .string .invalid _ (by
    simp +decide [StringToValue, StringToSliceValue, convSliceElems, StringToStringValue,
      zeroValue, goSplit, goSplitChars])

/-- C8: integer conversion parses at 64 bits and converts to the exact
target width, wrapping instead of erroring; 300 into int8 gives 44. -/
theorem c8_int_truncation :
    (∀ (k : IKind) (s : String) (n : Int) (out : RValue), parseGoInt s = .ok n →
        StringToValue s (.int k) out = (none, .intv k (wrapInt k n))) ∧
    (∀ (k : UKind) (s : String) (n : Nat) (out : RValue), parseGoUint s = .ok n →
        StringToValue s (.uint k) out = (none, .uintv k (wrapUint k n))) ∧
    StringToValue "300" (.int .i8) (.intv .i8 0) = (none, .intv .i8 44) ∧
    StringToValue "300" (.uint .u8) (.uintv .u8 0) = (none, .uintv .u8 44) := by
  refine ⟨?_, ?_, ?_, ?_⟩
  · intro k s n out h
    rw [stv_int]
    simp [StringToIntValue, h]
  · intro k s n out h
    rw [stv_uint]
    simp [StringToUintValue, h]
  · simp +decide [StringToValue, StringToIntValue, parseGoInt, digitsVal, wrapInt,
      IKind.width]
  · simp +decide [StringToValue, StringToUintValue, parseGoUint, digitsVal, wrapUint,
      UKind.width]

theorem c8_witness :
    StringToValue "1000" (.int .i8) .invalid = (none, .intv .i8 (wrapInt .i8 1000)) :=
  c8_int_truncation.1 .i8 "1000" 1000 .invalid (by
    simp +decide [parseGoInt, digitsVal])
